import Mathlib

/-!
Verification of the YogaStat analytics data pipeline
(`src/utils/data_processor.py`, `src/utils/date_filter.py`, `src/app.py`)
against its natural-language specification.

The Python code is shallowly embedded: JSON/Python values become the
inductive type `Py` (numbers are modelled by rationals, which represent
Python int/float arithmetic exactly on the integer-count inputs this
pipeline handles), dictionaries become association lists in insertion
order, and fallible Python code (code that can raise `TypeError`,
`ValueError`, `ZeroDivisionError`, `AttributeError`) is modelled in the
`Except String` monad.  `process_webhook_data` catches every exception
and returns `None`, which the embedding mirrors by collapsing `.error`
to `none` at the top level.
-/

namespace YogaStat

/-- A Python/JSON value as it occurs in webhook payloads.  Numbers
(`int`/`float`) are modelled by `ℚ`; `null` stands for `None` and for
any other non-iterable scalar. -/
inductive Py where
  | num (q : ℚ)
  | str (s : String)
  | list (items : List Py)
  | dict (fields : List (String × Py))
  | null

/-- A Python dict with string keys, in insertion order (the shape of a
period record). -/
abbrev Rec := List (String × Py)

mutual

/-- Structural equality of Python values, modelling the `==` used on
dict keys. -/
def Py.beq : Py → Py → Bool
  | .num a, .num b => a = b
  | .str a, .str b => a = b
  | .list a, .list b => Py.beqList a b
  | .dict a, .dict b => Py.beqDict a b
  | .null, .null => true
  | _, _ => false

def Py.beqList : List Py → List Py → Bool
  | [], [] => true
  | a :: as, b :: bs => Py.beq a b && Py.beqList as bs
  | _, _ => false

def Py.beqDict : List (String × Py) → List (String × Py) → Bool
  | [], [] => true
  | (ka, va) :: as, (kb, vb) :: bs => (ka = kb : Bool) && Py.beq va vb && Py.beqDict as bs
  | _, _ => false

end

/-- First binding of key `k`, i.e. Python `d[k]` when present. -/
def Rec.find? : Rec → String → Option Py
  | [], _ => none
  | p :: rest, k => if p.1 = k then some p.2 else Rec.find? rest k

/-- Python `d.get(k, default)`. -/
def Rec.getD (r : Rec) (k : String) (d : Py) : Py :=
  (Rec.find? r k).getD d

/-- Python `k in d`. -/
def Rec.hasKey (r : Rec) (k : String) : Bool :=
  (Rec.find? r k).isSome

/-- Python `d[k] = v`: replace the first binding of `k` in place, or
append a new binding (dicts preserve insertion order). -/
def Rec.set : Rec → String → Py → Rec
  | [], k, v => [(k, v)]
  | p :: rest, k, v =>
      if p.1 = k then (k, v) :: rest else p :: Rec.set rest k v

/-! ### Numeric coercions (`float(...)`, `int(...)`) -/

/-- Whether a string is accepted by Python `float(...)`: an optional
sign followed by digits, digits `.` digits, `.` digits or digits `.`
(exponent forms and `inf`/`nan` are not modelled; no claim depends on
them). -/
def floatBodyOk (cs : List Char) : Bool :=
  match cs.splitOn '.' with
  | [a] => !a.isEmpty && a.all Char.isDigit
  | [a, b] => a.all Char.isDigit && b.all Char.isDigit && (!a.isEmpty || !b.isEmpty)
  | _ => false

def strFloatOk (s : String) : Bool :=
  match s.toList with
  | '+' :: rest => floatBodyOk rest
  | '-' :: rest => floatBodyOk rest
  | cs => floatBodyOk cs

/-- Whether Python `float(v)` succeeds on the value `v`. -/
def pyFloatOk : Py → Bool
  | .num _ => true
  | .str s => strFloatOk s
  | _ => false

/-- Digit string to a natural number. -/
def digitsVal (cs : List Char) : ℕ :=
  cs.foldl (fun acc c => 10 * acc + (c.toNat - 48)) 0

/-- Whether a string is accepted by Python `int(...)`: an optional sign
followed by decimal digits only. -/
def strIntOk (s : String) : Bool :=
  match s.toList with
  | '+' :: rest => !rest.isEmpty && rest.all Char.isDigit
  | '-' :: rest => !rest.isEmpty && rest.all Char.isDigit
  | cs => !cs.isEmpty && cs.all Char.isDigit

def strIntVal (s : String) : ℤ :=
  match s.toList with
  | '+' :: rest => (digitsVal rest : ℤ)
  | '-' :: rest => -(digitsVal rest : ℤ)
  | cs => (digitsVal cs : ℤ)

/-- Truncation toward zero, the behaviour of Python `int()` on floats. -/
def ratTrunc (q : ℚ) : ℤ :=
  if 0 ≤ q then ⌊q⌋ else ⌈q⌉

/-- Python `int(v)`: truncates numbers, parses integer-literal strings,
raises `TypeError`/`ValueError` otherwise. -/
def pyIntE : Py → Except String ℤ
  | .num q => .ok (ratTrunc q)
  | .str s => if strIntOk s then .ok (strIntVal s) else .error "ValueError"
  | _ => .error "TypeError"

/-- Python `a + b` on values: numbers add, strings concatenate, every
other combination raises `TypeError`. -/
def pyAdd : Py → Py → Except String Py
  | .num a, .num b => .ok (.num (a + b))
  | .str a, .str b => .ok (.str (a ++ b))
  | _, _ => .error "TypeError"

/-- Python `a - b` on values. -/
def pySub : Py → Py → Except String Py
  | .num a, .num b => .ok (.num (a - b))
  | _, _ => .error "TypeError"

/-- Python `a * b` on values (string repetition is collapsed into the
`TypeError` its result would raise on the next arithmetic step in the
merge loop, the only place this operation is reached). -/
def pyMul : Py → Py → Except String Py
  | .num a, .num b => .ok (.num (a * b))
  | _, _ => .error "TypeError"

/-- Python `a / b` on values, raising `ZeroDivisionError` on a zero
denominator and `TypeError` on non-numbers. -/
def pyDiv : Py → Py → Except String Py
  | .num a, .num b => if b = 0 then .error "ZeroDivisionError" else .ok (.num (a / b))
  | _, _ => .error "TypeError"

/-- Python `v > 0`, raising `TypeError` on non-numbers. -/
def pyGtZero : Py → Except String Bool
  | .num q => .ok (decide (0 < q))
  | _ => .error "TypeError"

/-! ### `DataProcessor` field lists (`__init__`) -/

def requiredFields : List String :=
  ["time", "first_open", "app_remove", "session_start", "app_open",
   "login", "view_exercise", "health_survey", "view_roadmap",
   "practice_with_video", "practice_with_ai", "chat_ai",
   "show_popup", "view_detail_popup", "close_popup"]

def optionalFields : List String :=
  ["store_subscription", "in_app_purchase", "avg_engage_time"]

def coreFields : List String :=
  ["first_open", "session_start", "app_open"]

def fieldMapping : List (String × String) :=
  [("in_app_purchasse", "in_app_purchase"),
   ("buy_package", "in_app_purchase"),
   ("AvgEngagementTime", "avg_engage_time"),
   ("avgEngagementTime", "avg_engage_time")]

/-! ### `DataProcessor.calculate_kpis` and `calculate_popup_metrics` -/

/-- Embedding of `DataProcessor.calculate_kpis`.  The result is the KPI
dict in insertion order; the computation is in `Except` because `int()`
and the arithmetic can raise on non-numeric field values. -/
def calculateKpis (data : Rec) : Except String Rec := do
  let tnu ← pyIntE (data.getD "first_open" (.num 0))
  let act ← pyIntE (data.getD "session_start" (.num 0))
  let tao ← pyIntE (data.getD "app_open" (.num 0))
  let arm ← pyIntE (data.getD "app_remove" (.num 0))
  let totalUsers : ℤ := tnu + tao
  let retention : ℚ := if 0 < tnu then (tao : ℚ) / (tnu : ℚ) else 0
  let churn : ℚ := if 0 < totalUsers then (arm : ℚ) / (totalUsers : ℚ) else 0
  let ps ← pyAdd (data.getD "practice_with_video" (.num 0))
                 (data.getD "practice_with_ai" (.num 0))
  let totalOpens : ℤ := tnu + tao
  let engagement ← if 0 < totalOpens then pyDiv ps (.num (totalOpens : ℚ))
                   else pure (Py.num 0)
  let logins ← pyIntE (data.getD "login" (.num 0))
  let psInt ← pyIntE ps
  let ai ← pyIntE (data.getD "chat_ai" (.num 0))
  let avg := data.getD "avg_engage_time" (.num 0)
  return [("total_new_users", .num (tnu : ℚ)),
          ("active_sessions", .num (act : ℚ)),
          ("total_app_opens", .num (tao : ℚ)),
          ("app_removals", .num (arm : ℚ)),
          ("retention_rate", .num retention),
          ("churn_rate", .num churn),
          ("engagement_rate", engagement),
          ("total_logins", .num (logins : ℚ)),
          ("practice_sessions", .num (psInt : ℚ)),
          ("ai_interactions", .num (ai : ℚ)),
          ("avg_engagement_time", avg)]

/-- Embedding of `DataProcessor.calculate_popup_metrics`. -/
def calculatePopupMetrics (data : Rec) : Except String Rec := do
  let shown ← pyIntE (data.getD "show_popup" (.num 0))
  let dv ← pyIntE (data.getD "view_detail_popup" (.num 0))
  let cl ← pyIntE (data.getD "close_popup" (.num 0))
  let conv : ℚ := if 0 < shown then (dv : ℚ) / (shown : ℚ) else 0
  let close : ℚ := if 0 < shown then (cl : ℚ) / (shown : ℚ) else 0
  return [("total_shown", .num (shown : ℚ)),
          ("detail_views", .num (dv : ℚ)),
          ("total_closed", .num (cl : ℚ)),
          ("conversion_rate", .num conv),
          ("close_rate", .num close)]

/-! ### Evaluation lemmas for the KPI calculators -/

@[simp] theorem exceptOkBind {ε α β : Type} (a : α) (f : α → Except ε β) :
    (Except.ok a : Except ε α) >>= f = f a := rfl

@[simp] theorem exceptErrBind {ε α β : Type} (e : ε) (f : α → Except ε β) :
    (Except.error e : Except ε α) >>= f = Except.error e := rfl

@[simp] theorem exceptPureEq {ε α : Type} (a : α) :
    (pure a : Except ε α) = Except.ok a := rfl

@[simp] theorem exceptMapOk {ε α β : Type} (f : α → β) (a : α) :
    (Except.ok a : Except ε α).map f = Except.ok (f a) := rfl

@[simp] theorem exceptMapErr {ε α β : Type} (f : α → β) (e : ε) :
    (Except.error e : Except ε α).map f = Except.error e := rfl

theorem ratTrunc_natCast (n : ℕ) : ratTrunc (n : ℚ) = (n : ℤ) := by
  simp [ratTrunc, Nat.cast_nonneg]

theorem pyIntE_natCast (n : ℕ) : pyIntE (.num (n : ℚ)) = .ok (n : ℤ) := by
  simp [pyIntE, ratTrunc_natCast]

/-- Full evaluation of `calculate_kpis` on a record whose relevant
fields hold natural-number counts (the shape every period record and
aggregate in this pipeline has). -/
theorem calculateKpis_spec (r : Rec) (fo act ao ar pv pa lg ca : ℕ)
    (hfo : r.getD "first_open" (.num 0) = .num (fo : ℚ))
    (hss : r.getD "session_start" (.num 0) = .num (act : ℚ))
    (hao : r.getD "app_open" (.num 0) = .num (ao : ℚ))
    (har : r.getD "app_remove" (.num 0) = .num (ar : ℚ))
    (hpv : r.getD "practice_with_video" (.num 0) = .num (pv : ℚ))
    (hpa : r.getD "practice_with_ai" (.num 0) = .num (pa : ℚ))
    (hlg : r.getD "login" (.num 0) = .num (lg : ℚ))
    (hca : r.getD "chat_ai" (.num 0) = .num (ca : ℚ)) :
    calculateKpis r =
      .ok [("total_new_users", .num (fo : ℚ)),
           ("active_sessions", .num (act : ℚ)),
           ("total_app_opens", .num (ao : ℚ)),
           ("app_removals", .num (ar : ℚ)),
           ("retention_rate", .num (if 0 < fo then (ao : ℚ) / (fo : ℚ) else 0)),
           ("churn_rate", .num (if 0 < fo + ao then (ar : ℚ) / ((fo : ℚ) + (ao : ℚ)) else 0)),
           ("engagement_rate", .num (if 0 < fo + ao then ((pv : ℚ) + (pa : ℚ)) / ((fo : ℚ) + (ao : ℚ)) else 0)),
           ("total_logins", .num (lg : ℚ)),
           ("practice_sessions", .num ((pv : ℚ) + (pa : ℚ))),
           ("ai_interactions", .num (ca : ℚ)),
           ("avg_engagement_time", r.getD "avg_engage_time" (.num 0))] := by
  rw [calculateKpis, hfo, hss, hao, har, hpv, hpa, hlg, hca]
  rw [pyIntE_natCast, pyIntE_natCast, pyIntE_natCast, pyIntE_natCast]
  have hsum : Py.num ((pv : ℚ) + (pa : ℚ)) = Py.num (((pv + pa : ℕ) : ℚ)) := by
    push_cast; ring_nf
  simp only [exceptOkBind, pyAdd, hsum, pyIntE_natCast, exceptOkBind]
  by_cases h : 0 < fo + ao
  · have hz : (0 : ℤ) < (fo : ℤ) + (ao : ℤ) := by exact_mod_cast h
    have hzq : ¬ ((((fo : ℤ) + (ao : ℤ) : ℤ)) : ℚ) = 0 := by
      push_cast
      exact (ne_of_gt (by exact_mod_cast h))
    simp only [if_pos hz, pyDiv, if_neg hzq, exceptOkBind, pyIntE_natCast,
      exceptPureEq]
    simp only [if_pos h]
    by_cases hfo0 : 0 < fo
    · have hfz : (0 : ℤ) < (fo : ℤ) := by exact_mod_cast hfo0
      simp only [if_pos hfz, if_pos hfo0]
      push_cast
      ring_nf
    · have hfz : ¬ (0 : ℤ) < (fo : ℤ) := by exact_mod_cast hfo0
      simp only [if_neg hfz, if_neg hfo0]
      push_cast
      ring_nf
  · have hz : ¬ (0 : ℤ) < (fo : ℤ) + (ao : ℤ) := by exact_mod_cast h
    have hfo0 : ¬ 0 < fo := by omega
    have hfz : ¬ (0 : ℤ) < (fo : ℤ) := by exact_mod_cast hfo0
    simp only [if_neg hz, if_neg h, if_neg hfz, if_neg hfo0, exceptPureEq,
      exceptOkBind, pyIntE_natCast]
    push_cast
    ring_nf

/-- Full evaluation of `calculate_popup_metrics` on natural-number
counts. -/
theorem calculatePopupMetrics_spec (r : Rec) (sp dv cp : ℕ)
    (hsp : r.getD "show_popup" (.num 0) = .num (sp : ℚ))
    (hdv : r.getD "view_detail_popup" (.num 0) = .num (dv : ℚ))
    (hcp : r.getD "close_popup" (.num 0) = .num (cp : ℚ)) :
    calculatePopupMetrics r =
      .ok [("total_shown", .num (sp : ℚ)),
           ("detail_views", .num (dv : ℚ)),
           ("total_closed", .num (cp : ℚ)),
           ("conversion_rate", .num (if 0 < sp then (dv : ℚ) / (sp : ℚ) else 0)),
           ("close_rate", .num (if 0 < sp then (cp : ℚ) / (sp : ℚ) else 0))] := by
  rw [calculatePopupMetrics, hsp, hdv, hcp]
  rw [pyIntE_natCast, pyIntE_natCast, pyIntE_natCast]
  by_cases h : 0 < sp
  · have hz : (0 : ℤ) < (sp : ℤ) := by exact_mod_cast h
    simp only [exceptOkBind, exceptPureEq, if_pos hz, if_pos h]
    push_cast
    ring_nf
  · have hz : ¬ (0 : ℤ) < (sp : ℤ) := by exact_mod_cast h
    simp only [exceptOkBind, exceptPureEq, if_neg hz, if_neg h]
    push_cast
    ring_nf

/-! ### Claims C1, C2, C9: KPI division guards -/

/-- C1 (counterexample): the claim says a zero denominator is guarded by
substituting 1 as the denominator, so that a record with
`first_open = 0`, `app_open = 5` would get `retention_rate = 5 / 1`.
The code instead substitutes 0 for the whole ratio: `calculate_kpis`
returns `retention_rate = 0` there, and `5 / 1 ≠ 0`. -/
theorem C1_counterexample :
    (calculateKpis [("first_open", Py.num 0), ("app_open", Py.num 5)]).map
        (fun k => Rec.find? k "retention_rate") = .ok (some (Py.num 0)) ∧
      (5 : ℚ) / 1 ≠ 0 := by
  constructor
  · rfl
  · norm_num

/-- C1 (amended): every KPI/metric division (retention, churn,
engagement, popup conversion, popup close rate) guards against a zero
denominator by returning 0 for the ratio (not by substituting 1 as the
denominator). -/
theorem C1_amended_zero_guard (r : Rec) (fo act ao ar pv pa lg ca sp dv cp : ℕ)
    (hfo : r.getD "first_open" (.num 0) = .num (fo : ℚ))
    (hss : r.getD "session_start" (.num 0) = .num (act : ℚ))
    (hao : r.getD "app_open" (.num 0) = .num (ao : ℚ))
    (har : r.getD "app_remove" (.num 0) = .num (ar : ℚ))
    (hpv : r.getD "practice_with_video" (.num 0) = .num (pv : ℚ))
    (hpa : r.getD "practice_with_ai" (.num 0) = .num (pa : ℚ))
    (hlg : r.getD "login" (.num 0) = .num (lg : ℚ))
    (hca : r.getD "chat_ai" (.num 0) = .num (ca : ℚ))
    (hsp : r.getD "show_popup" (.num 0) = .num (sp : ℚ))
    (hdv : r.getD "view_detail_popup" (.num 0) = .num (dv : ℚ))
    (hcp : r.getD "close_popup" (.num 0) = .num (cp : ℚ)) :
    ∃ k p, calculateKpis r = .ok k ∧ calculatePopupMetrics r = .ok p ∧
      (fo = 0 → Rec.find? k "retention_rate" = some (.num 0)) ∧
      (fo + ao = 0 → Rec.find? k "churn_rate" = some (.num 0) ∧
        Rec.find? k "engagement_rate" = some (.num 0)) ∧
      (sp = 0 → Rec.find? p "conversion_rate" = some (.num 0) ∧
        Rec.find? p "close_rate" = some (.num 0)) := by
  refine ⟨_, _, calculateKpis_spec r fo act ao ar pv pa lg ca hfo hss hao har hpv hpa hlg hca,
    calculatePopupMetrics_spec r sp dv cp hsp hdv hcp, ?_, ?_, ?_⟩
  · intro h
    have : ¬ 0 < fo := by omega
    simp [Rec.find?, if_neg this]
  · intro h
    obtain ⟨h1, h2⟩ : fo = 0 ∧ ao = 0 := by omega
    subst h1
    subst h2
    constructor <;> simp [Rec.find?]
  · intro h
    subst h
    constructor <;> simp [Rec.find?]

/-- C1 (witness): the amended guard evaluated on the empty record,
whose every count is 0. -/
theorem C1_witness :
    ∃ k p, calculateKpis [] = .ok k ∧ calculatePopupMetrics [] = .ok p ∧
      ((0 : ℕ) = 0 → Rec.find? k "retention_rate" = some (.num 0)) ∧
      ((0 : ℕ) + 0 = 0 → Rec.find? k "churn_rate" = some (.num 0) ∧
        Rec.find? k "engagement_rate" = some (.num 0)) ∧
      ((0 : ℕ) = 0 → Rec.find? p "conversion_rate" = some (.num 0) ∧
        Rec.find? p "close_rate" = some (.num 0)) :=
  C1_amended_zero_guard [] 0 0 0 0 0 0 0 0 0 0 0
    (by simp [Rec.getD, Rec.find?]) (by simp [Rec.getD, Rec.find?])
    (by simp [Rec.getD, Rec.find?]) (by simp [Rec.getD, Rec.find?])
    (by simp [Rec.getD, Rec.find?]) (by simp [Rec.getD, Rec.find?])
    (by simp [Rec.getD, Rec.find?]) (by simp [Rec.getD, Rec.find?])
    (by simp [Rec.getD, Rec.find?]) (by simp [Rec.getD, Rec.find?])
    (by simp [Rec.getD, Rec.find?])

/-- C2: on a period record with natural-number counts, the computed
`retention_rate` is `app_open / first_open` when `first_open > 0` and 0
when `first_open = 0` (the other numeric fields only need to be counts
for `calculate_kpis` to run without a `TypeError`). -/
theorem C2_retention_rate (r : Rec) (fo act ao ar pv pa lg ca : ℕ)
    (hfo : r.getD "first_open" (.num 0) = .num (fo : ℚ))
    (hss : r.getD "session_start" (.num 0) = .num (act : ℚ))
    (hao : r.getD "app_open" (.num 0) = .num (ao : ℚ))
    (har : r.getD "app_remove" (.num 0) = .num (ar : ℚ))
    (hpv : r.getD "practice_with_video" (.num 0) = .num (pv : ℚ))
    (hpa : r.getD "practice_with_ai" (.num 0) = .num (pa : ℚ))
    (hlg : r.getD "login" (.num 0) = .num (lg : ℚ))
    (hca : r.getD "chat_ai" (.num 0) = .num (ca : ℚ)) :
    ∃ k, calculateKpis r = .ok k ∧
      (0 < fo → Rec.find? k "retention_rate" = some (.num ((ao : ℚ) / (fo : ℚ)))) ∧
      (fo = 0 → Rec.find? k "retention_rate" = some (.num 0)) := by
  refine ⟨_, calculateKpis_spec r fo act ao ar pv pa lg ca hfo hss hao har hpv hpa hlg hca,
    ?_, ?_⟩
  · intro h
    simp [Rec.find?, if_pos h]
  · intro h
    have : ¬ 0 < fo := by omega
    simp [Rec.find?, if_neg this]

/-- C2 (witness): a record with `first_open = 4`, `app_open = 2` gets
`retention_rate = 2 / 4`. -/
theorem C2_witness :
    ∃ k, calculateKpis [("first_open", Py.num 4), ("app_open", Py.num 2)] = .ok k ∧
      (0 < (4 : ℕ) → Rec.find? k "retention_rate" = some (.num (((2 : ℕ) : ℚ) / ((4 : ℕ) : ℚ)))) ∧
      ((4 : ℕ) = 0 → Rec.find? k "retention_rate" = some (.num 0)) :=
  C2_retention_rate [("first_open", Py.num 4), ("app_open", Py.num 2)] 4 0 2 0 0 0 0 0
    (by simp [Rec.getD, Rec.find?]) (by simp [Rec.getD, Rec.find?])
    (by simp [Rec.getD, Rec.find?]) (by simp [Rec.getD, Rec.find?])
    (by simp [Rec.getD, Rec.find?]) (by simp [Rec.getD, Rec.find?])
    (by simp [Rec.getD, Rec.find?]) (by simp [Rec.getD, Rec.find?])

/-- C9: on a record with natural-number counts, the computed
`engagement_rate` is the practice sessions
(`practice_with_video + practice_with_ai`) divided by the opens
(`first_open + app_open`, the denominator `calculate_kpis` uses), and 0
when that denominator is 0. -/
theorem C9_engagement_rate (r : Rec) (fo act ao ar pv pa lg ca : ℕ)
    (hfo : r.getD "first_open" (.num 0) = .num (fo : ℚ))
    (hss : r.getD "session_start" (.num 0) = .num (act : ℚ))
    (hao : r.getD "app_open" (.num 0) = .num (ao : ℚ))
    (har : r.getD "app_remove" (.num 0) = .num (ar : ℚ))
    (hpv : r.getD "practice_with_video" (.num 0) = .num (pv : ℚ))
    (hpa : r.getD "practice_with_ai" (.num 0) = .num (pa : ℚ))
    (hlg : r.getD "login" (.num 0) = .num (lg : ℚ))
    (hca : r.getD "chat_ai" (.num 0) = .num (ca : ℚ)) :
    ∃ k, calculateKpis r = .ok k ∧
      Rec.find? k "engagement_rate" =
        some (.num (if 0 < fo + ao then ((pv : ℚ) + (pa : ℚ)) / ((fo : ℚ) + (ao : ℚ)) else 0)) := by
  refine ⟨_, calculateKpis_spec r fo act ao ar pv pa lg ca hfo hss hao har hpv hpa hlg hca, ?_⟩
  simp [Rec.find?]

/-- C9 (witness): `practice_with_video = 3`, `practice_with_ai = 1`,
`first_open = 2`, `app_open = 6` gives `engagement_rate = 4 / 8`. -/
theorem C9_witness :
    ∃ k, calculateKpis [("first_open", Py.num 2), ("app_open", Py.num 6),
        ("practice_with_video", Py.num 3), ("practice_with_ai", Py.num 1)] = .ok k ∧
      Rec.find? k "engagement_rate" =
        some (.num (if 0 < (2 : ℕ) + 6 then (((3 : ℕ) : ℚ) + ((1 : ℕ) : ℚ)) / (((2 : ℕ) : ℚ) + ((6 : ℕ) : ℚ)) else 0)) :=
  C9_engagement_rate [("first_open", Py.num 2), ("app_open", Py.num 6),
      ("practice_with_video", Py.num 3), ("practice_with_ai", Py.num 1)] 2 0 6 0 3 1 0 0
    (by simp [Rec.getD, Rec.find?]) (by simp [Rec.getD, Rec.find?])
    (by simp [Rec.getD, Rec.find?]) (by simp [Rec.getD, Rec.find?])
    (by simp [Rec.getD, Rec.find?]) (by simp [Rec.getD, Rec.find?])
    (by simp [Rec.getD, Rec.find?]) (by simp [Rec.getD, Rec.find?])

/-! ### `DataProcessor._aggregate_time_series_data` -/

/-- Python `sum(item.get(field, 0) for item in data_list)`: the sum
starts from the int 0, so a non-numeric field value raises
`TypeError`. -/
def sumFieldE (f : String) (data : List Rec) : Except String Py :=
  data.foldlM (fun acc it => pyAdd acc (it.getD f (.num 0))) (Py.num 0)

/-- Python `[item.get(field, 0) for item in data_list if
item.get(field, 0) > 0]`; the comparison raises `TypeError` on
non-numeric values. -/
def posValuesE (f : String) : List Rec → Except String (List Py)
  | [] => .ok []
  | it :: rest => do
      let b ← pyGtZero (it.getD f (.num 0))
      let vs ← posValuesE f rest
      .ok (if b then it.getD f (.num 0) :: vs else vs)

def pyListSumE (vs : List Py) : Except String Py :=
  vs.foldlM pyAdd (Py.num 0)

/-- Python `sum(values) / len(values) if values else 0` for the
`avg_engage_time` field. -/
def avgFieldE (f : String) (data : List Rec) : Except String Py := do
  let vs ← posValuesE f data
  if vs.isEmpty then .ok (.num 0)
  else do
    let s ← pyListSumE vs
    pyDiv s (.num (vs.length : ℚ))

/-- Python `value.split(' - ')[0]`, raising `AttributeError` when the
time value is not a string. -/
def timeFirstPart : Py → Except String String
  | .str s => .ok ((s.splitOn " - ").headD "")
  | _ => .error "AttributeError"

/-- Python `value.split(' - ')[-1]`. -/
def timeLastPart : Py → Except String String
  | .str s => .ok ((s.splitOn " - ").getLastD "")
  | _ => .error "AttributeError"

/-- One iteration of the field loop of `_aggregate_time_series_data`. -/
def aggFieldE (data : List Rec) (f : String) : Except String (String × Py) :=
  if f = "time" then do
    let ft ← timeFirstPart ((data.headD []).getD "time" (.str ""))
    let lt ← timeLastPart ((data.getLastD []).getD "time" (.str ""))
    .ok ("time", .str ("Total: " ++ ft ++ " - " ++ lt))
  else if f = "avg_engage_time" then do
    let v ← avgFieldE f data
    .ok (f, v)
  else do
    let s ← sumFieldE f data
    .ok (f, s)

/-- Embedding of `DataProcessor._aggregate_time_series_data`: an empty
list aggregates to the empty dict, otherwise the fields of
`required_fields + optional_fields` are filled in order. -/
def aggregateTimeSeries (data : List Rec) : Except String Rec :=
  if data.isEmpty then .ok []
  else (requiredFields ++ optionalFields).mapM (aggFieldE data)

/-! ### Reading numeric fields, and evaluation of the aggregator -/

/-- The rational carried by a numeric Python value (only used under
hypotheses making the value numeric). -/
def pyQ : Py → ℚ
  | .num q => q
  | _ => 0

/-- The numeric value of field `f` of a record, with the Python
default 0 for a missing field. -/
def recQ (r : Rec) (f : String) : ℚ :=
  pyQ (r.getD f (.num 0))

/-- Field `f` of `r` is numeric or absent. -/
def isNumAt (r : Rec) (f : String) : Prop :=
  ∃ q : ℚ, r.getD f (.num 0) = .num q

/-- A well-formed period record: the `time` binding (if any) holds a
string, every other binding holds a number. -/
def cleanRec (r : Rec) : Prop :=
  ∀ p ∈ r, (p.1 = "time" → ∃ s, p.2 = Py.str s) ∧
    (p.1 ≠ "time" → ∃ q : ℚ, p.2 = Py.num q)

theorem cleanRec_isNumAt {r : Rec} (h : cleanRec r) {f : String}
    (hf : f ≠ "time") : isNumAt r f := by
  induction r with
  | nil => exact ⟨0, rfl⟩
  | cons p rest ih =>
      have hp := h p (List.mem_cons_self p rest)
      have hrest : cleanRec rest := fun q hq => h q (List.mem_cons_of_mem p hq)
      by_cases hk : p.1 = f
      · obtain ⟨q, hq⟩ := hp.2 (hk ▸ hf)
        refine ⟨q, ?_⟩
        simp [Rec.getD, Rec.find?, hk, hq]
      · obtain ⟨q, hq⟩ := ih hrest
        refine ⟨q, ?_⟩
        simpa [Rec.getD, Rec.find?, hk] using hq

theorem cleanRec_timeStr {r : Rec} (h : cleanRec r) :
    ∃ s, r.getD "time" (.str "") = .str s := by
  induction r with
  | nil => exact ⟨"", rfl⟩
  | cons p rest ih =>
      have hp := h p (List.mem_cons_self p rest)
      have hrest : cleanRec rest := fun q hq => h q (List.mem_cons_of_mem p hq)
      by_cases hk : p.1 = "time"
      · obtain ⟨s, hs⟩ := hp.1 hk
        refine ⟨s, ?_⟩
        simp [Rec.getD, Rec.find?, hk, hs]
      · obtain ⟨s, hs⟩ := ih hrest
        refine ⟨s, ?_⟩
        simpa [Rec.getD, Rec.find?, hk] using hs

theorem isNumAt_recQ {r : Rec} {f : String} (h : isNumAt r f) :
    r.getD f (.num 0) = .num (recQ r f) := by
  obtain ⟨q, hq⟩ := h
  simp [recQ, hq, pyQ]

theorem pyAdd_num (a b : ℚ) : pyAdd (.num a) (.num b) = .ok (.num (a + b)) := rfl

theorem sumFieldE_ok {f : String} {data : List Rec}
    (h : ∀ r ∈ data, isNumAt r f) :
    sumFieldE f data = .ok (.num ((data.map (fun r => recQ r f)).sum)) := by
  suffices H : ∀ a : ℚ,
      data.foldlM (fun acc it => pyAdd acc (it.getD f (.num 0))) (Py.num a) =
        .ok (.num (a + (data.map (fun r => recQ r f)).sum)) by
    simpa [sumFieldE] using H 0
  induction data with
  | nil => intro a; simp [List.foldlM]
  | cons r rest ih =>
      intro a
      have hr := isNumAt_recQ (h r (List.mem_cons_self r rest))
      have hrest : ∀ x ∈ rest, isNumAt x f := fun x hx => h x (List.mem_cons_of_mem r hx)
      rw [List.foldlM_cons, hr, pyAdd_num, exceptOkBind]
      rw [ih hrest (a + recQ r f)]
      simp [add_assoc]

theorem posValuesE_ok {f : String} {data : List Rec}
    (h : ∀ r ∈ data, isNumAt r f) :
    posValuesE f data =
      .ok (((data.map (fun r => recQ r f)).filter (fun q => 0 < q)).map Py.num) := by
  induction data with
  | nil => simp [posValuesE]
  | cons r rest ih =>
      have hr := isNumAt_recQ (h r (List.mem_cons_self r rest))
      have hrest : ∀ x ∈ rest, isNumAt x f := fun x hx => h x (List.mem_cons_of_mem r hx)
      rw [posValuesE, hr]
      simp only [pyGtZero, exceptOkBind, ih hrest, List.map_cons, List.filter_cons]
      by_cases hq : 0 < recQ r f
      · simp [hq, hr]
      · simp [hq]

theorem pyListSumE_nums (qs : List ℚ) :
    pyListSumE (qs.map Py.num) = .ok (.num qs.sum) := by
  suffices H : ∀ a : ℚ,
      (qs.map Py.num).foldlM pyAdd (Py.num a) = .ok (.num (a + qs.sum)) by
    simpa [pyListSumE] using H 0
  induction qs with
  | nil => intro a; simp [List.foldlM]
  | cons q rest ih =>
      intro a
      rw [List.map_cons, List.foldlM_cons, pyAdd_num, exceptOkBind]
      rw [ih (a + q)]
      simp [add_assoc]

/-- The arithmetic mean of the strictly positive entries of a list of
rationals, and 0 when there are none: the value
`_aggregate_time_series_data` gives the `avg_engage_time` field. -/
def posMean (qs : List ℚ) : ℚ :=
  let ps := qs.filter (fun q => 0 < q)
  if ps.isEmpty then 0 else ps.sum / (ps.length : ℚ)

theorem avgFieldE_ok {f : String} {data : List Rec}
    (h : ∀ r ∈ data, isNumAt r f) :
    avgFieldE f data = .ok (.num (posMean (data.map (fun r => recQ r f)))) := by
  obtain ⟨ps, hps⟩ :
      ∃ ps, (data.map (fun r => recQ r f)).filter (fun q => 0 < q) = ps := ⟨_, rfl⟩
  rw [avgFieldE, posValuesE_ok h, hps, exceptOkBind]
  simp only [posMean]
  rw [hps]
  cases ps with
  | nil => simp
  | cons q qs =>
      have hlen : ((qs.length : ℚ) + 1) ≠ 0 := by positivity
      rw [pyListSumE_nums]
      simp [pyDiv, hlen]

theorem mapM_ok_of_forall {α β : Type} {fs : List α} {step : α → Except String β}
    {g : α → β} (h : ∀ f ∈ fs, step f = .ok (g f)) :
    fs.mapM step = .ok (fs.map g) := by
  induction fs with
  | nil => rfl
  | cons x xs ih =>
      rw [List.mapM_cons, h x (List.mem_cons_self x xs),
        ih (fun f hf => h f (List.mem_cons_of_mem x hf))]
      rfl

theorem find?_mapPairs (g : String → Py) {fs : List String} {f : String}
    (hf : f ∈ fs) :
    Rec.find? (fs.map (fun x => (x, g x))) f = some (g f) := by
  induction fs with
  | nil => cases hf
  | cons x xs ih =>
      rw [List.map_cons]
      by_cases hx : x = f
      · subst hx
        simp [Rec.find?]
      · have hmem : f ∈ xs := by
          rcases List.mem_cons.mp hf with h1 | h1
          · exact absurd h1.symm hx
          · exact h1
        simp [Rec.find?, hx, ih hmem]

theorem getLastD_mem {α : Type} : ∀ (l : List α) (x : α), l ≠ [] → l.getLastD x ∈ l
  | [], _, h => absurd rfl h
  | [a], x, _ => by simp [List.getLastD]
  | a :: b :: l, x, _ => by
      have hrec := getLastD_mem (b :: l) a (by simp)
      simp [List.getLastD]

/-- The string a (well-formed) time value carries. -/
def timeStrD : Py → String
  | .str s => s
  | _ => ""

/-- The value `_aggregate_time_series_data` computes for each field of
a non-empty list of well-formed records: the combined time label, the
positive mean for `avg_engage_time`, the plain sum otherwise. -/
def aggValSpec (data : List Rec) (f : String) : Py :=
  if f = "time" then
    .str ("Total: "
      ++ ((timeStrD ((data.headD []).getD "time" (.str ""))).splitOn " - ").headD ""
      ++ " - "
      ++ ((timeStrD ((data.getLastD []).getD "time" (.str ""))).splitOn " - ").getLastD "")
  else if f = "avg_engage_time" then .num (posMean (data.map (fun r => recQ r f)))
  else .num ((data.map (fun r => recQ r f)).sum)

theorem headD_mem {α : Type} (l : List α) (x : α) (h : l ≠ []) : l.headD x ∈ l := by
  cases l with
  | nil => exact absurd rfl h
  | cons a as => simp [List.headD]

theorem aggregateTimeSeries_spec {data : List Rec} (hne : data ≠ [])
    (hclean : ∀ r ∈ data, cleanRec r) :
    aggregateTimeSeries data =
      .ok ((requiredFields ++ optionalFields).map (fun f => (f, aggValSpec data f))) := by
  rw [aggregateTimeSeries, if_neg (by simpa [List.isEmpty_iff] using hne)]
  apply mapM_ok_of_forall
  intro f hf
  by_cases ht : f = "time"
  · subst ht
    obtain ⟨s1, hs1⟩ := cleanRec_timeStr (hclean _ (headD_mem data [] hne))
    obtain ⟨s2, hs2⟩ := cleanRec_timeStr (hclean _ (getLastD_mem data [] hne))
    have hval : aggValSpec data "time" =
        .str ("Total: " ++ (s1.splitOn " - ").headD "" ++ " - "
          ++ (s2.splitOn " - ").getLastD "") := by
      unfold aggValSpec
      rw [if_pos rfl, hs1, hs2]
      rfl
    rw [aggFieldE, if_pos rfl, hs1, hs2, hval]
    rfl
  · by_cases ha : f = "avg_engage_time"
    · subst ha
      rw [aggFieldE, if_neg (by decide), if_pos rfl,
        avgFieldE_ok (fun r hr => cleanRec_isNumAt (hclean r hr) (by decide))]
      simp [aggValSpec]
    · rw [aggFieldE, if_neg ht, if_neg ha,
        sumFieldE_ok (fun r hr => cleanRec_isNumAt (hclean r hr) ht)]
      simp [aggValSpec, ht, ha]

/-! ### Claim C3: time-series aggregation -/

/-- C3 (counterexample): the claim says `avg_engage_time` aggregates to
the arithmetic mean of its non-zero values.  On two records holding
`-2` and `4` the code averages only the strictly positive values and
returns `4`, while the mean of the non-zero values is `1 ≠ 4`. -/
theorem C3_counterexample :
    (aggregateTimeSeries
        [[("time", Py.str "a"), ("first_open", Py.num 1), ("avg_engage_time", Py.num (-2))],
         [("time", Py.str "b"), ("first_open", Py.num 2), ("avg_engage_time", Py.num 4)]]).map
      (fun a => Rec.find? a "avg_engage_time") = .ok (some (Py.num 4)) ∧
    ((-2 : ℚ) + 4) / 2 ≠ 4 := by
  constructor
  · have hclean : ∀ r ∈ [[("time", Py.str "a"), ("first_open", Py.num 1),
        ("avg_engage_time", Py.num (-2))],
        [("time", Py.str "b"), ("first_open", Py.num 2), ("avg_engage_time", Py.num 4)]],
        cleanRec r := by
      intro r hr p hp
      rcases List.mem_cons.mp hr with h1 | h1
      · subst h1
        rcases List.mem_cons.mp hp with h2 | h2
        · subst h2
          exact ⟨fun _ => ⟨_, rfl⟩, fun hc => absurd rfl hc⟩
        rcases List.mem_cons.mp h2 with h3 | h3
        · subst h3
          exact ⟨fun hc => absurd hc (by decide), fun _ => ⟨1, rfl⟩⟩
        · rcases List.mem_singleton.mp h3 with h4
          subst h4
          exact ⟨fun hc => absurd hc (by decide), fun _ => ⟨-2, rfl⟩⟩
      · rcases List.mem_singleton.mp h1 with h2
        subst h2
        rcases List.mem_cons.mp hp with h2 | h2
        · subst h2
          exact ⟨fun _ => ⟨_, rfl⟩, fun hc => absurd rfl hc⟩
        rcases List.mem_cons.mp h2 with h3 | h3
        · subst h3
          exact ⟨fun hc => absurd hc (by decide), fun _ => ⟨2, rfl⟩⟩
        · rcases List.mem_singleton.mp h3 with h4
          subst h4
          exact ⟨fun hc => absurd hc (by decide), fun _ => ⟨4, rfl⟩⟩
    rw [aggregateTimeSeries_spec (by simp) hclean]
    rw [exceptMapOk,
      find?_mapPairs _ (by decide : "avg_engage_time" ∈ requiredFields ++ optionalFields)]
    have : aggValSpec [[("time", Py.str "a"), ("first_open", Py.num 1),
        ("avg_engage_time", Py.num (-2))],
        [("time", Py.str "b"), ("first_open", Py.num 2), ("avg_engage_time", Py.num 4)]]
        "avg_engage_time" = Py.num 4 := by
      unfold aggValSpec
      rw [if_neg (by decide), if_pos rfl]
      have hmap : ([[("time", Py.str "a"), ("first_open", Py.num 1),
          ("avg_engage_time", Py.num (-2))],
          [("time", Py.str "b"), ("first_open", Py.num 2), ("avg_engage_time", Py.num 4)]].map
            (fun r => recQ r "avg_engage_time")) = [(-2 : ℚ), 4] := by
        simp [recQ, Rec.getD, Rec.find?, pyQ]
      rw [hmap]
      norm_num [posMean, List.filter]
    rw [this]
  · norm_num

/-- C3 (amended): aggregating a non-empty list of well-formed period
records sums every counter field, except `avg_engage_time`, which is
the arithmetic mean of its strictly positive values (and 0 when there
are none). -/
theorem C3_amended_aggregate (data : List Rec) (hne : data ≠ [])
    (hclean : ∀ r ∈ data, cleanRec r) :
    ∃ agg, aggregateTimeSeries data = .ok agg ∧
      (∀ f ∈ requiredFields ++ optionalFields, f ≠ "time" → f ≠ "avg_engage_time" →
        Rec.find? agg f = some (.num ((data.map (fun r => recQ r f)).sum))) ∧
      Rec.find? agg "avg_engage_time" =
        some (.num (posMean (data.map (fun r => recQ r "avg_engage_time")))) := by
  refine ⟨_, aggregateTimeSeries_spec hne hclean, ?_, ?_⟩
  · intro f hf ht ha
    rw [find?_mapPairs _ hf]
    simp [aggValSpec, ht, ha]
  · rw [find?_mapPairs _
      (by decide : "avg_engage_time" ∈ requiredFields ++ optionalFields)]
    simp [aggValSpec]

/-- C3 (witness): the amended aggregation theorem applied to two
concrete daily records. -/
theorem C3_witness :
    ∃ agg, aggregateTimeSeries
        [[("time", Py.str "01/01/2025"), ("first_open", Py.num 3)],
         [("time", Py.str "02/01/2025"), ("first_open", Py.num 4)]] = .ok agg ∧
      (∀ f ∈ requiredFields ++ optionalFields, f ≠ "time" → f ≠ "avg_engage_time" →
        Rec.find? agg f = some (.num (([[("time", Py.str "01/01/2025"), ("first_open", Py.num 3)],
          [("time", Py.str "02/01/2025"), ("first_open", Py.num 4)]].map (fun r => recQ r f)).sum))) ∧
      Rec.find? agg "avg_engage_time" =
        some (.num (posMean ([[("time", Py.str "01/01/2025"), ("first_open", Py.num 3)],
          [("time", Py.str "02/01/2025"), ("first_open", Py.num 4)]].map
            (fun r => recQ r "avg_engage_time")))) := by
  apply C3_amended_aggregate
  · simp
  · intro r hr
    rcases List.mem_cons.mp hr with h1 | h1
    · subst h1
      intro p hp
      rcases List.mem_cons.mp hp with h2 | h2
      · subst h2
        exact ⟨fun _ => ⟨_, rfl⟩, fun hc => absurd rfl hc⟩
      · rcases List.mem_singleton.mp h2 with h3
        subst h3
        exact ⟨fun hc => absurd hc (by decide), fun _ => ⟨3, rfl⟩⟩
    · rcases List.mem_singleton.mp h1 with h2
      subst h2
      intro p hp
      rcases List.mem_cons.mp hp with h2 | h2
      · subst h2
        exact ⟨fun _ => ⟨_, rfl⟩, fun hc => absurd rfl hc⟩
      · rcases List.mem_singleton.mp h2 with h3
        subst h3
        exact ⟨fun hc => absurd hc (by decide), fun _ => ⟨4, rfl⟩⟩

/-! ### `DataProcessor.aggregate_to_weekly` -/

/-- Python `str()` as used by an f-string on a record field value (the
non-string branches are only display forms; every claim uses string
time values). -/
def pyStrOf : Py → String
  | .str s => s
  | .num q => toString q
  | .null => "None"
  | .list _ => "<list>"
  | .dict _ => "<dict>"

/-- One iteration of the field loop in `aggregate_to_weekly` (the
`time` field is skipped by `continue` in the source). -/
def weekFieldE (week : List Rec) (f : String) : Except String (String × Py) :=
  if f = "avg_engage_time" then do
    let v ← avgFieldE f week
    .ok (f, v)
  else do
    let s ← sumFieldE f week
    .ok (f, s)

/-- The label `f"{week_start} - {week_end}"` of one aggregated week. -/
def weekTimeLabel (week : List Rec) : String :=
  pyStrOf ((week.headD []).getD "time" (.str "")) ++ " - "
    ++ pyStrOf ((week.getLastD []).getD "time" (.str ""))

/-- The aggregation body executed by `aggregate_to_weekly` when a week
is flushed (7 records collected, or the input is exhausted). -/
def aggregateWeekE (week : List Rec) : Except String Rec := do
  let pairs ← ((requiredFields ++ optionalFields).filter
      (fun f => decide (f ≠ "time"))).mapM (weekFieldE week)
  .ok (("time", .str (weekTimeLabel week)) :: pairs)

/-- The record-accumulating loop of `aggregate_to_weekly`: the second
argument is `current_week`; a week is flushed when it reaches 7 records
or at the last record. -/
def aggLoop : List Rec → List Rec → Except String (List Rec)
  | [], _ => .ok []
  | r :: rest, cw =>
      let cw2 := cw ++ [r]
      if cw2.length = 7 ∨ rest.isEmpty then do
        let w ← aggregateWeekE cw2
        let ws ← aggLoop rest []
        .ok (w :: ws)
      else aggLoop rest cw2

/-- Embedding of `DataProcessor.aggregate_to_weekly`. -/
def aggregateToWeekly (daily : List Rec) : Except String (List Rec) :=
  if daily.isEmpty then .ok [] else aggLoop daily []

/-- Consecutive chunks of 7, the last one possibly shorter. -/
def chunks7 : List Rec → List (List Rec)
  | [] => []
  | r :: rest => (r :: rest).take 7 :: chunks7 ((r :: rest).drop 7)
termination_by l => l.length
decreasing_by
  simp
  omega

/-- The tail-state form of the chunks the loop will still produce when
`current_week` already holds `cw`. -/
def chunksFrom (cw pending : List Rec) : List (List Rec) :=
  if pending.length ≤ 7 - cw.length then [cw ++ pending]
  else (cw ++ pending.take (7 - cw.length)) :: chunks7 (pending.drop (7 - cw.length))

theorem chunks7_nil : chunks7 [] = [] := by
  simp [chunks7]

theorem chunks7_cons (r : Rec) (rest : List Rec) :
    chunks7 (r :: rest) = (r :: rest).take 7 :: chunks7 ((r :: rest).drop 7) := by
  simp [chunks7]

theorem chunksFrom_nil_left {pending : List Rec} (h : pending ≠ []) :
    chunksFrom [] pending = chunks7 pending := by
  cases pending with
  | nil => exact absurd rfl h
  | cons r rest =>
      rw [chunksFrom, chunks7_cons]
      by_cases hle : (r :: rest).length ≤ 7 - ([] : List Rec).length
      · have h7 : (r :: rest).length ≤ 7 := by simpa using hle
        rw [if_pos hle]
        rw [List.take_of_length_le h7, List.drop_eq_nil_of_le h7, chunks7_nil]
        simp
      · rw [if_neg hle]
        simp

theorem aggLoop_eq_chunksFrom :
    ∀ (pending : List Rec), pending ≠ [] → ∀ cw : List Rec, cw.length < 7 →
      aggLoop pending cw = (chunksFrom cw pending).mapM aggregateWeekE := by
  intro pending
  induction pending with
  | nil => intro h; exact absurd rfl h
  | cons r rest ih =>
      intro _ cw hcw
      rw [aggLoop]
      by_cases hrest : rest = []
      · subst hrest
        have hfl : (cw ++ [r]).length = 7 ∨ ([] : List Rec).isEmpty = true := Or.inr rfl
        rw [if_pos hfl]
        have hcf : chunksFrom cw [r] = [cw ++ [r]] := by
          rw [chunksFrom, if_pos (by simp; omega)]
        rw [hcf]
        rfl
      · by_cases hfull : (cw ++ [r]).length = 7
        · have hfl : (cw ++ [r]).length = 7 ∨ rest.isEmpty = true := Or.inl hfull
          rw [if_pos hfl]
          have hcwlen : cw.length = 6 := by
            have := hfull
            simp at this
            omega
          have hr1 : 1 ≤ rest.length := by
            cases rest with
            | nil => exact absurd rfl hrest
            | cons a as => simp
          have hcf : chunksFrom cw (r :: rest) = (cw ++ [r]) :: chunks7 rest := by
            rw [chunksFrom]
            have hlen : ¬ (r :: rest).length ≤ 7 - cw.length := by
              rw [hcwlen]
              simp only [List.length_cons]
              omega
            rw [if_neg hlen]
            have h1 : 7 - cw.length = 1 := by omega
            rw [h1]
            simp
          rw [hcf, List.mapM_cons, ih hrest [] (by norm_num)]
          rw [chunksFrom_nil_left hrest]
          rfl
        · have hfl : ¬ ((cw ++ [r]).length = 7 ∨ rest.isEmpty = true) := by
            rw [List.isEmpty_iff]
            push_neg
            exact ⟨hfull, hrest⟩
          rw [if_neg hfl]
          have hlen2 : (cw ++ [r]).length < 7 := by
            have h1 : (cw ++ [r]).length = cw.length + 1 := by simp
            have h2 : (cw ++ [r]).length ≠ 7 := hfull
            omega
          rw [ih hrest (cw ++ [r]) hlen2]
          have hcf : chunksFrom cw (r :: rest) = chunksFrom (cw ++ [r]) rest := by
            have hk : ∃ m, 7 - cw.length = m + 2 := by
              refine ⟨7 - cw.length - 2, ?_⟩
              have h1 : (cw ++ [r]).length = cw.length + 1 := by simp
              omega
            obtain ⟨m, hm⟩ := hk
            rw [chunksFrom, chunksFrom]
            have hlenr : (cw ++ [r]).length = cw.length + 1 := by simp
            have hm2 : 7 - (cw ++ [r]).length = m + 1 := by omega
            rw [hm, hm2]
            by_cases hsm : rest.length ≤ m + 1
            · rw [if_pos (by simp; omega), if_pos hsm]
              simp
            · rw [if_neg (by simp; omega), if_neg hsm]
              rw [List.take_succ_cons, List.drop_succ_cons]
              simp
          rw [hcf]

/-- The weekly aggregate the loop produces for one chunk of
well-formed records. -/
def weekValSpec (week : List Rec) : Rec :=
  ("time", .str (weekTimeLabel week)) ::
    ((requiredFields ++ optionalFields).filter (fun f => decide (f ≠ "time"))).map
      (fun f => (f,
        if f = "avg_engage_time" then Py.num (posMean (week.map (fun r => recQ r f)))
        else Py.num ((week.map (fun r => recQ r f)).sum)))

theorem aggregateWeekE_spec {week : List Rec}
    (hclean : ∀ r ∈ week, cleanRec r) :
    aggregateWeekE week = .ok (weekValSpec week) := by
  rw [aggregateWeekE, weekValSpec]
  rw [mapM_ok_of_forall (g := fun f =>
    (f, if f = "avg_engage_time" then Py.num (posMean (week.map (fun r => recQ r f)))
        else Py.num ((week.map (fun r => recQ r f)).sum)))]
  · rfl
  · intro f hf
    have hft : f ≠ "time" := by
      have := (List.mem_filter.mp hf).2
      simpa using this
    have hnum : ∀ r ∈ week, isNumAt r f :=
      fun r hr => cleanRec_isNumAt (hclean r hr) hft
    by_cases ha : f = "avg_engage_time"
    · subst ha
      rw [weekFieldE, if_pos rfl, avgFieldE_ok hnum]
      simp
    · rw [weekFieldE, if_neg ha, sumFieldE_ok hnum]
      simp [ha]

theorem chunks7_flattenAux :
    ∀ (n : ℕ) (l : List Rec), l.length ≤ n → (chunks7 l).flatten = l := by
  intro n
  induction n with
  | zero =>
      intro l hl
      have : l = [] := List.length_eq_zero.mp (Nat.le_zero.mp hl)
      subst this
      simp [chunks7_nil]
  | succ n ih =>
      intro l hl
      cases l with
      | nil => simp [chunks7_nil]
      | cons r rest =>
          rw [chunks7_cons, List.flatten_cons]
          rw [ih ((r :: rest).drop 7) (by simp only [List.length_drop, List.length_cons] at hl ⊢; omega)]
          exact List.take_append_drop 7 (r :: rest)

theorem chunks7_lengthAux :
    ∀ (n : ℕ) (l : List Rec), l.length ≤ n → (chunks7 l).length = (l.length + 6) / 7 := by
  intro n
  induction n with
  | zero =>
      intro l hl
      have : l = [] := List.length_eq_zero.mp (Nat.le_zero.mp hl)
      subst this
      simp [chunks7_nil]
  | succ n ih =>
      intro l hl
      cases l with
      | nil => simp [chunks7_nil]
      | cons r rest =>
          rw [chunks7_cons, List.length_cons]
          rw [ih ((r :: rest).drop 7) (by simp only [List.length_drop, List.length_cons] at hl ⊢; omega)]
          simp only [List.length_drop, List.length_cons]
          omega

theorem chunks7_memAux :
    ∀ (n : ℕ) (l : List Rec), l.length ≤ n → ∀ c ∈ chunks7 l, ∀ r ∈ c, r ∈ l := by
  intro n
  induction n with
  | zero =>
      intro l hl
      have : l = [] := List.length_eq_zero.mp (Nat.le_zero.mp hl)
      subst this
      simp [chunks7_nil]
  | succ n ih =>
      intro l hl c hc r hr
      cases l with
      | nil => simp [chunks7_nil] at hc
      | cons a rest =>
          rw [chunks7_cons] at hc
          rcases List.mem_cons.mp hc with h1 | h1
          · subst h1
            exact List.take_subset 7 (a :: rest) hr
          · exact List.drop_subset 7 (a :: rest)
              (ih ((a :: rest).drop 7) (by simp only [List.length_drop, List.length_cons] at hl ⊢; omega) c h1 r hr)

theorem chunks7_shapeAux :
    ∀ (n : ℕ) (l : List Rec), l.length ≤ n →
      ∀ c ∈ chunks7 l, c ≠ [] ∧ c.length ≤ 7 := by
  intro n
  induction n with
  | zero =>
      intro l hl
      have : l = [] := List.length_eq_zero.mp (Nat.le_zero.mp hl)
      subst this
      simp [chunks7_nil]
  | succ n ih =>
      intro l hl c hc
      cases l with
      | nil => simp [chunks7_nil] at hc
      | cons a rest =>
          rw [chunks7_cons] at hc
          rcases List.mem_cons.mp hc with h1 | h1
          · subst h1
            refine ⟨by simp [List.take_succ_cons], ?_⟩
            simp
          · exact ih ((a :: rest).drop 7) (by simp only [List.length_drop, List.length_cons] at hl ⊢; omega) c h1

theorem chunks7_eq_nil_iff (l : List Rec) : chunks7 l = [] ↔ l = [] := by
  cases l with
  | nil => simp [chunks7_nil]
  | cons a rest => simp [chunks7_cons]

theorem chunks7_fullAux :
    ∀ (n : ℕ) (l : List Rec), l.length ≤ n →
      ∀ (i : ℕ) (c : List Rec), i + 1 < (chunks7 l).length →
        (chunks7 l)[i]? = some c → c.length = 7 := by
  intro n
  induction n with
  | zero =>
      intro l hl
      have : l = [] := List.length_eq_zero.mp (Nat.le_zero.mp hl)
      subst this
      simp [chunks7_nil]
  | succ n ih =>
      intro l hl i c hi hc
      cases l with
      | nil => simp [chunks7_nil] at hc
      | cons a rest =>
          rw [chunks7_cons] at hi hc
          cases i with
          | zero =>
              rw [List.getElem?_cons_zero] at hc
              have hcc : c = (a :: rest).take 7 := by
                exact (Option.some.injEq _ _).mp hc.symm
              subst hcc
              have hdropne : (a :: rest).drop 7 ≠ [] := by
                intro hd
                rw [← chunks7_eq_nil_iff] at hd
                rw [hd] at hi
                simp at hi
              have hlong : 7 ≤ (a :: rest).length := by
                by_contra hlt
                exact hdropne (List.drop_eq_nil_of_le (by omega))
              simpa using hlong
          | succ j =>
              rw [List.getElem?_cons_succ] at hc
              rw [List.length_cons] at hi
              exact ih ((a :: rest).drop 7) (by simp only [List.length_drop, List.length_cons] at hl ⊢; omega) j c (by omega) hc

/-! ### Claim C10: weekly aggregation -/

/-- C10: aggregating `n > 0` well-formed daily records into weekly
periods produces exactly `ceil(n / 7) = (n + 6) / 7` weekly records;
the output is the week aggregator mapped over the consecutive 7-chunks
of the input (the last chunk possibly shorter, all chunks non-empty,
all but the last of length exactly 7, and their concatenation is the
input, so each daily record is counted in exactly one week); the i-th
weekly record's `time` field is the label
`first day time - last day time` of the i-th chunk and its counter
fields are the per-chunk sums. -/
theorem C10_weekly_aggregation (daily : List Rec) (hne : daily ≠ [])
    (hclean : ∀ r ∈ daily, cleanRec r) :
    ∃ ws, aggregateToWeekly daily = .ok ws ∧
      ws = (chunks7 daily).map weekValSpec ∧
      ws.length = (daily.length + 6) / 7 ∧
      (chunks7 daily).flatten = daily ∧
      (∀ c ∈ chunks7 daily, c ≠ [] ∧ c.length ≤ 7) ∧
      (∀ (i : ℕ) (c : List Rec), i + 1 < (chunks7 daily).length →
        (chunks7 daily)[i]? = some c → c.length = 7) ∧
      (∀ (i : ℕ) (c : List Rec) (w : Rec),
        (chunks7 daily)[i]? = some c → ws[i]? = some w →
          Rec.find? w "time" = some (.str (weekTimeLabel c)) ∧
          (∀ f ∈ requiredFields ++ optionalFields, f ≠ "time" → f ≠ "avg_engage_time" →
            Rec.find? w f = some (.num ((c.map (fun r => recQ r f)).sum)))) := by
  have hok : aggregateToWeekly daily = .ok ((chunks7 daily).map weekValSpec) := by
    rw [aggregateToWeekly, if_neg (by simpa [List.isEmpty_iff] using hne)]
    rw [aggLoop_eq_chunksFrom daily hne [] (by norm_num), chunksFrom_nil_left hne]
    exact mapM_ok_of_forall (fun c hc =>
      aggregateWeekE_spec (fun r hr =>
        hclean r (chunks7_memAux daily.length daily le_rfl c hc r hr)))
  refine ⟨_, hok, rfl, ?_, chunks7_flattenAux daily.length daily le_rfl,
    chunks7_shapeAux daily.length daily le_rfl,
    chunks7_fullAux daily.length daily le_rfl, ?_⟩
  · rw [List.length_map, chunks7_lengthAux daily.length daily le_rfl]
  · intro i c w hc hw
    rw [List.getElem?_map, hc] at hw
    have hwc : w = weekValSpec c := by
      exact (Option.some.injEq _ _).mp hw.symm
    subst hwc
    constructor
    · simp [weekValSpec, Rec.find?]
    · intro f hf ht ha
      rw [weekValSpec]
      have hkey : Rec.find? (("time", Py.str (weekTimeLabel c)) ::
          ((requiredFields ++ optionalFields).filter (fun f => decide (f ≠ "time"))).map
            (fun f => (f,
              if f = "avg_engage_time" then Py.num (posMean (c.map (fun r => recQ r f)))
              else Py.num ((c.map (fun r => recQ r f)).sum)))) f =
          Rec.find? (((requiredFields ++ optionalFields).filter
            (fun f => decide (f ≠ "time"))).map
            (fun f => (f,
              if f = "avg_engage_time" then Py.num (posMean (c.map (fun r => recQ r f)))
              else Py.num ((c.map (fun r => recQ r f)).sum)))) f := by
        rw [Rec.find?, if_neg (fun h => ht h.symm)]
      rw [hkey, find?_mapPairs _ (List.mem_filter.mpr ⟨hf, by simp [ht]⟩)]
      simp [ha]

/-- C10 (witness): one daily record aggregates to one weekly record. -/
theorem C10_witness :
    ∃ ws, aggregateToWeekly [[("time", Py.str "05/01/2025"), ("first_open", Py.num 2)]] =
        .ok ws ∧
      ws = (chunks7 [[("time", Py.str "05/01/2025"), ("first_open", Py.num 2)]]).map weekValSpec ∧
      ws.length = (([[("time", Py.str "05/01/2025"), ("first_open", Py.num 2)]] :
        List Rec).length + 6) / 7 ∧
      (chunks7 [[("time", Py.str "05/01/2025"), ("first_open", Py.num 2)]]).flatten =
        [[("time", Py.str "05/01/2025"), ("first_open", Py.num 2)]] ∧
      (∀ c ∈ chunks7 [[("time", Py.str "05/01/2025"), ("first_open", Py.num 2)]],
        c ≠ [] ∧ c.length ≤ 7) ∧
      (∀ (i : ℕ) (c : List Rec),
        i + 1 < (chunks7 [[("time", Py.str "05/01/2025"), ("first_open", Py.num 2)]]).length →
        (chunks7 [[("time", Py.str "05/01/2025"), ("first_open", Py.num 2)]])[i]? = some c →
        c.length = 7) ∧
      (∀ (i : ℕ) (c : List Rec) (w : Rec),
        (chunks7 [[("time", Py.str "05/01/2025"), ("first_open", Py.num 2)]])[i]? = some c →
        ws[i]? = some w →
          Rec.find? w "time" = some (.str (weekTimeLabel c)) ∧
          (∀ f ∈ requiredFields ++ optionalFields, f ≠ "time" → f ≠ "avg_engage_time" →
            Rec.find? w f = some (.num ((c.map (fun r => recQ r f)).sum)))) := by
  apply C10_weekly_aggregation
  · simp
  · intro r hr
    rcases List.mem_singleton.mp hr with h1
    subst h1
    intro p hp
    rcases List.mem_cons.mp hp with h2 | h2
    · subst h2
      exact ⟨fun _ => ⟨_, rfl⟩, fun hc => absurd rfl hc⟩
    · rcases List.mem_singleton.mp h2 with h3
      subst h3
      exact ⟨fun hc => absurd hc (by decide), fun _ => ⟨2, rfl⟩⟩

/-! ### `DataProcessor.export_to_csv` (claim C6)

The CSV text is modelled at the character-list level.  `export_to_csv`
builds `pandas.DataFrame([data]).to_csv(index=False)`: a comma-joined
header line with the field names, a comma-joined line with the
stringified field values, each line terminated by a newline. -/

/-- The cell text a field value gets in the CSV row (its string
coercion). -/
def csvCell : Py → List Char
  | .str s => s.toList
  | .num q => (toString q).toList
  | .null => []
  | .list _ => "<list>".toList
  | .dict _ => "<dict>".toList

/-- Embedding of `export_to_csv` for one aggregated record. -/
def exportToCsv (r : Rec) : List Char :=
  ['\n'].intercalate
    [[','].intercalate (r.map (fun p => p.1.toList)),
     [','].intercalate (r.map (fun p => csvCell p.2)),
     []]

/-- Re-parsing the CSV text: split into lines, pair up the cells of the
header line with the cells of the first data line. -/
def parseCsv (cs : List Char) : List (List Char × List Char) :=
  match cs.splitOn '\n' with
  | header :: row :: _ => (header.splitOn ',').zip (row.splitOn ',')
  | _ => []

theorem not_mem_intercalate (a x : Char) :
    ∀ (ls : List (List Char)), a ≠ x → (∀ l ∈ ls, a ∉ l) →
      a ∉ [x].intercalate ls
  | [], _, _ => by simp [List.intercalate]
  | [l], _, h => by
      simp only [List.intercalate, List.intersperse_singleton, List.flatten]
      simpa using h l (by simp)
  | l :: l2 :: rest, hax, h => by
      have ih := not_mem_intercalate a x (l2 :: rest) hax
        (fun m hm => h m (List.mem_cons_of_mem l hm))
      simp only [List.intercalate] at ih
      intro hmem
      simp only [List.intercalate, List.intersperse_cons_cons, List.flatten_cons] at hmem
      rcases List.mem_append.mp hmem with h1 | h1
      · exact h l (by simp) h1
      rcases List.mem_append.mp h1 with h2 | h2
      · exact hax (List.mem_singleton.mp h2)
      · exact ih h2

/-- C6: exporting a record to CSV and re-parsing the CSV yields exactly
the original field names with the original values coerced to strings,
provided no field name or stringified value contains the separator
characters (true of every aggregated record: its field names are fixed
identifiers and its values are numbers or date-range labels). -/
theorem C6_csv_roundtrip (r : Rec) (hne : r ≠ [])
    (hn : ∀ p ∈ r, ',' ∉ p.1.toList ∧ '\n' ∉ p.1.toList)
    (hv : ∀ p ∈ r, ',' ∉ csvCell p.2 ∧ '\n' ∉ csvCell p.2) :
    parseCsv (exportToCsv r) = r.map (fun p => (p.1.toList, csvCell p.2)) := by
  have hnames : ∀ nl ∈ r.map (fun p => p.1.toList), ',' ∉ nl ∧ '\n' ∉ nl := by
    intro nl hnl
    obtain ⟨p, hp, rfl⟩ := List.mem_map.mp hnl
    exact hn p hp
  have hcells : ∀ cl ∈ r.map (fun p => csvCell p.2), ',' ∉ cl ∧ '\n' ∉ cl := by
    intro cl hcl
    obtain ⟨p, hp, rfl⟩ := List.mem_map.mp hcl
    exact hv p hp
  have hsplit : (exportToCsv r).splitOn '\n' =
      [[','].intercalate (r.map (fun p => p.1.toList)),
       [','].intercalate (r.map (fun p => csvCell p.2)), []] := by
    apply List.splitOn_intercalate
    · intro l hl
      rcases List.mem_cons.mp hl with h1 | h1
      · subst h1
        exact not_mem_intercalate '\n' ',' _ (by decide)
          (fun m hm => (hnames m hm).2)
      rcases List.mem_cons.mp h1 with h2 | h2
      · subst h2
        exact not_mem_intercalate '\n' ',' _ (by decide)
          (fun m hm => (hcells m hm).2)
      · rcases List.mem_singleton.mp h2 with h3
        subst h3
        simp
    · simp
  have hred : parseCsv (exportToCsv r) =
      (([','].intercalate (r.map (fun p => p.1.toList))).splitOn ',').zip
        (([','].intercalate (r.map (fun p => csvCell p.2))).splitOn ',') := by
    rw [parseCsv, hsplit]
  rw [hred]
  rw [List.splitOn_intercalate _ ',' (fun m hm => (hnames m hm).1) (by simpa using hne),
    List.splitOn_intercalate _ ',' (fun m hm => (hcells m hm).1) (by simpa using hne)]
  exact List.zip_map' _ _ r

/-- C6 (witness): round trip of a concrete two-field record. -/
theorem C6_witness :
    parseCsv (exportToCsv [("time", Py.str "01/01/2025 - 07/01/2025"),
        ("first_open", Py.num 3)]) =
      [("time", Py.str "01/01/2025 - 07/01/2025"), ("first_open", Py.num 3)].map
        (fun p => (p.1.toList, csvCell p.2)) := by
  apply C6_csv_roundtrip
  · simp
  · intro p hp
    rcases List.mem_cons.mp hp with h1 | h1
    · subst h1
      exact ⟨by decide, by decide⟩
    · rcases List.mem_singleton.mp h1 with h2
      subst h2
      exact ⟨by decide, by decide⟩
  · intro p hp
    rcases List.mem_cons.mp hp with h1 | h1
    · subst h1
      exact ⟨by decide, by decide⟩
    · rcases List.mem_singleton.mp h1 with h2
      subst h2
      exact ⟨by decide, by decide⟩

/-! ### `DateRangeFilter.filter_data` (`src/utils/date_filter.py`) -/

def isLeapYear (y : ℕ) : Bool :=
  y % 4 = 0 && (y % 100 ≠ 0 || y % 400 = 0)

def daysInMonth (y m : ℕ) : ℕ :=
  if m = 2 then (if isLeapYear y then 29 else 28)
  else if m = 4 ∨ m = 6 ∨ m = 9 ∨ m = 11 then 30
  else 31

def leapsBefore (y : ℕ) : ℕ :=
  (y - 1) / 4 - (y - 1) / 100 + (y - 1) / 400

def daysBeforeMonth (y m : ℕ) : ℕ :=
  ((List.range (m - 1)).map (fun i => daysInMonth y (i + 1))).sum

/-- Proleptic Gregorian day number of a calendar date (day 1 is
01/01/0001), the ordinal on which Python `datetime.date` comparison and
`timedelta` arithmetic operate. -/
def dateOrdinal (y m d : ℕ) : ℤ :=
  365 * ((y : ℤ) - 1) + (leapsBefore y : ℤ) + (daysBeforeMonth y m : ℤ) + (d : ℤ)

def allDigits (cs : List Char) : Bool :=
  !cs.isEmpty && cs.all Char.isDigit

/-- Embedding of `datetime.strptime(date_str, ' %d/%m/%Y ').date()` as
used in `filter_data`: `some` ordinal for a valid `dd/mm/yyyy` calendar
date (1-2 digit day and month, 4 digit year, ranges checked as the
`datetime` constructor does), `none` when it raises `ValueError`. -/
def parseDMY? (s : String) : Option ℤ :=
  match s.toList.splitOn '/' with
  | [ds, ms, ys] =>
      if allDigits ds && ds.length ≤ 2 && allDigits ms && ms.length ≤ 2
          && allDigits ys && ys.length = 4 then
        let d := digitsVal ds
        let m := digitsVal ms
        let y := digitsVal ys
        if 1 ≤ y ∧ 1 ≤ m ∧ m ≤ 12 ∧ 1 ≤ d ∧ d ≤ daysInMonth y m then
          some (dateOrdinal y m d)
        else none
      else none
  | _ => none

/-- Embedding of `DateRangeFilter.filter_data` with an applied range
`[st, en]` given as day ordinals: a record is kept when its 7-day
window `[date - 6, date]` satisfies `date - 6 ≤ en` and `date ≥ st`;
records without the date field, or whose date value is not a string or
fails to parse, are skipped by the `except (ValueError, TypeError)`
clause. -/
def filterData (st en : ℤ) (dateField : String) (data : List Rec) : List Rec :=
  data.filter (fun item =>
    match Rec.find? item dateField with
    | some (.str s) =>
        match parseDMY? s with
        | some d => decide (d - 6 ≤ en ∧ st ≤ d)
        | none => false
    | some _ => false
    | none => false)

/-- The parsed date of a record, when it has one. -/
def itemDate? (dateField : String) (item : Rec) : Option ℤ :=
  match Rec.find? item dateField with
  | some (.str s) => parseDMY? s
  | _ => none

theorem filterPred_iff (st en : ℤ) (item : Rec) :
    (match Rec.find? item "time" with
      | some (.str s) =>
          match parseDMY? s with
          | some d => decide (d - 6 ≤ en ∧ st ≤ d)
          | none => false
      | some _ => false
      | none => false) = true ↔
    ∃ d, itemDate? "time" item = some d ∧ d - 6 ≤ en ∧ st ≤ d := by
  cases hfind : Rec.find? item "time" with
  | none => simp [itemDate?, hfind]
  | some v =>
      cases v with
      | str s =>
          cases hp : parseDMY? s with
          | none => simp [itemDate?, hfind, hp]
          | some d => simp [itemDate?, hfind, hp]
      | num q => simp [itemDate?, hfind]
      | list l => simp [itemDate?, hfind]
      | dict l => simp [itemDate?, hfind]
      | null => simp [itemDate?, hfind]

/-! ### Claim C5: date-range filtering -/

/-- C5 (counterexample): the claim says filtering with an empty range
(end before start) returns an empty list.  With the applied range
`[739258, 739257]` (start 07/01/2025, end 06/01/2025, so end < start)
the record dated 07/01/2025 is still kept, because the code's overlap
test `period_start <= end and period_end >= start` does not require the
range itself to be non-empty. -/
theorem C5_counterexample :
    filterData 739258 739257 "time" [[("time", Py.str "07/01/2025")]] =
      [[("time", Py.str "07/01/2025")]] ∧ (739257 : ℤ) < 739258 := by
  constructor
  · rfl
  · norm_num

/-- C5 (amended): a record is kept exactly when it carries a parseable
date `d` with `d - 6 ≤ end` and `start ≤ d`; whenever `start ≤ end`
this is precisely "the 7-day window `[d-6, d]` intersects
`[start, end]`", but for an empty range (end before start) the filter
still returns this (possibly non-empty) list rather than raising or
returning `[]`. -/
theorem C5_amended_filter (st en : ℤ) (data : List Rec) :
    (∀ item, item ∈ filterData st en "time" data ↔
      item ∈ data ∧ ∃ d, itemDate? "time" item = some d ∧ d - 6 ≤ en ∧ st ≤ d) ∧
    (st ≤ en → ∀ d : ℤ,
      ((d - 6 ≤ en ∧ st ≤ d) ↔ ∃ x : ℤ, d - 6 ≤ x ∧ x ≤ d ∧ st ≤ x ∧ x ≤ en)) := by
  constructor
  · intro item
    rw [filterData, List.mem_filter]
    rw [filterPred_iff st en item]
  · intro hrange d
    constructor
    · intro h
      refine ⟨max (d - 6) st, le_max_left _ _, max_le (by omega) (by omega),
        le_max_right _ _, max_le (by omega) (by omega)⟩
    · rintro ⟨x, h1, h2, h3, h4⟩
      omega

/-- C5 (witness): the amended characterisation applied to a concrete
record and range (07/01/2025 is day 739258). -/
theorem C5_witness :
    ([("time", Py.str "07/01/2025")] : Rec) ∈
      filterData 739250 739260 "time" [[("time", Py.str "07/01/2025")]] :=
  ((C5_amended_filter 739250 739260 [[("time", Py.str "07/01/2025")]]).1 _).mpr
    ⟨by simp, 739258, by rfl, by norm_num, by norm_num⟩

/-! ### `DataProcessor` validation (claims C7, C8) -/

/-- Embedding of `DataProcessor.validate_data`: the argument must be a
dict holding every required field, and every required field except
`time` must parse as a float. -/
def validateData : Py → Bool
  | .dict d =>
      requiredFields.all (fun f => Rec.hasKey d f) &&
        (requiredFields.filter (fun f => decide (f ≠ "time"))).all
          (fun f => pyFloatOk (Rec.getD d f .null))
  | _ => false

/-- Embedding of `DataProcessor._validate_data_relaxed`: requires a
dict with a `time` field and at least one of the three core count
fields; the value loop skips `time` and `row_number` and rejects only a
non-float value sitting under a required field name. -/
def validateDataRelaxed : Py → Bool
  | .dict d =>
      Rec.hasKey d "time" &&
      coreFields.any (fun f => Rec.hasKey d f) &&
      d.all (fun kv =>
        decide (kv.1 = "time") || decide (kv.1 = "row_number") ||
          pyFloatOk kv.2 || !(requiredFields.contains kv.1))
  | _ => false

/-- The acceptance predicate exactly as claim C8 words it: a mapping
with a `time` field, at least one core count field, and every
non-numeric value only under a field name that is not reserved. -/
def relaxedSpecAccepts : Py → Bool
  | .dict d =>
      Rec.hasKey d "time" &&
      coreFields.any (fun f => Rec.hasKey d f) &&
      d.all (fun kv => pyFloatOk kv.2 || !(requiredFields.contains kv.1))
  | _ => false

/-! ### Claim C8: relaxed validation -/

/-- C8 (counterexample): the record `[time: "a", first_open: 5]` holds
the non-numeric value `"a"` under the reserved name `time`, so the
claimed predicate rejects it, yet `_validate_data_relaxed` accepts it
(the value loop skips the `time` field). -/
theorem C8_counterexample :
    validateDataRelaxed (.dict [("time", Py.str "a"), ("first_open", Py.num 5)]) = true ∧
    relaxedSpecAccepts (.dict [("time", Py.str "a"), ("first_open", Py.num 5)]) = false := by
  constructor <;> rfl

/-- C8 (amended): relaxed validation accepts a value iff it is a
mapping with a `time` field and at least one of the three core count
fields, in which every non-numeric value sits only under a field name
that is `time`, `row_number`, or not reserved (required). -/
theorem C8_amended_validation (p : Py) :
    validateDataRelaxed p = true ↔
      (match p with
        | .dict d =>
            Rec.hasKey d "time" = true ∧
            (∃ f ∈ coreFields, Rec.hasKey d f = true) ∧
            ∀ kv ∈ d, kv.1 ≠ "time" → kv.1 ≠ "row_number" →
              pyFloatOk kv.2 = false → kv.1 ∉ requiredFields
        | _ => False) := by
  cases p with
  | num q => simp [validateDataRelaxed]
  | str s => simp [validateDataRelaxed]
  | list l => simp [validateDataRelaxed]
  | null => simp [validateDataRelaxed]
  | dict d =>
      simp only [validateDataRelaxed, Bool.and_eq_true, List.all_eq_true,
        List.any_eq_true]
      constructor
      · rintro ⟨⟨ht, hcore⟩, hall⟩
        refine ⟨ht, hcore, ?_⟩
        intro kv hkv h1 h2 h3
        have hb := hall kv hkv
        simpa [h1, h2, h3] using hb
      · rintro ⟨ht, hcore, hother⟩
        refine ⟨⟨ht, hcore⟩, ?_⟩
        intro kv hkv
        by_cases h1 : kv.1 = "time"
        · simp [h1]
        by_cases h2 : kv.1 = "row_number"
        · simp [h2]
        by_cases h3 : pyFloatOk kv.2
        · simp [h3]
        · have := hother kv hkv h1 h2 (by simpa using h3)
          simp [h1, h2, h3, this]

/-- C8 (witness): the amended characterisation applied to a concrete
record accepted by the relaxed validation. -/
theorem C8_witness :
    validateDataRelaxed (.dict [("time", Py.str "01/01/2025"),
      ("first_open", Py.num 5), ("custom_metric", Py.str "hello")]) = true :=
  (C8_amended_validation (.dict [("time", Py.str "01/01/2025"),
      ("first_open", Py.num 5), ("custom_metric", Py.str "hello")])).mpr
    ⟨rfl, ⟨"first_open", by decide, rfl⟩, by
      intro kv hkv h1 h2 h3
      rcases List.mem_cons.mp hkv with he | he
      · exact absurd (by rw [he]) h1
      rcases List.mem_cons.mp he with he2 | he2
      · rw [he2] at h3
        exact absurd h3 (by decide)
      · rcases List.mem_singleton.mp he2 with he3
        rw [he3]
        decide⟩

/-! ### `_process_country_data`: merging countries per date (claim C4)

The accumulation over `all_time_periods` keyed by the `time` value:
the first country record of a date is copied, later ones are summed
field by field (`avg_engage_time` gets a running average with a
`*_count` helper key that is deleted afterwards). -/

def isNumVal : Py → Bool
  | .num _ => true
  | _ => false

/-- Python `k.endswith('_count')`. -/
def endsWithCount (s : String) : Bool :=
  List.isSuffixOf "_count".toList s.toList

/-- One `for field, value in item.items()` iteration of the merge loop
in `_process_country_data`. -/
def mergeField (acc : Rec) (kv : String × Py) : Except String Rec :=
  if kv.1 ≠ "time" ∧ isNumVal kv.2 then
    if kv.1 = "avg_engage_time" then do
      let ck := kv.1 ++ "_count"
      let acc1 := if Rec.hasKey acc ck then acc else Rec.set acc ck (.num 1)
      let c ← pyAdd (Rec.getD acc1 ck (.num 0)) (.num 1)
      let acc2 := Rec.set acc1 ck c
      let cm1 ← pySub c (.num 1)
      let prod ← pyMul (Rec.getD acc2 kv.1 (.num 0)) cm1
      let s ← pyAdd prod kv.2
      let v ← pyDiv s c
      .ok (Rec.set acc2 kv.1 v)
    else do
      let s ← pyAdd (Rec.getD acc kv.1 (.num 0)) kv.2
      .ok (Rec.set acc kv.1 s)
  else .ok acc

/-- Summing one country record into the accumulated record of the same
date. -/
def mergeInto (acc item : Rec) : Except String Rec :=
  item.foldlM mergeField acc

/-- The `all_time_periods` dictionary, keyed by `time` values. -/
abbrev TimeTable := List (Py × Rec)

def tblFind? : TimeTable → Py → Option Rec
  | [], _ => none
  | e :: rest, key => if Py.beq e.1 key then some e.2 else tblFind? rest key

def tblSet : TimeTable → Py → Rec → TimeTable
  | [], key, v => [(key, v)]
  | e :: rest, key, v =>
      if Py.beq e.1 key then (e.1, v) :: rest else e :: tblSet rest key v

/-- The `time` key under which a record is accumulated
(`item.get('time', 'Unknown')`). -/
def tval (item : Rec) : Py :=
  Rec.getD item "time" (.str "Unknown")

/-- One `for item in normalized_data` iteration of the cross-country
accumulation. -/
def accumItem (tbl : TimeTable) (item : Rec) : Except String TimeTable :=
  match tblFind? tbl (tval item) with
  | none => .ok (tblSet tbl (tval item) item)
  | some acc => do
      let m ← mergeInto acc item
      .ok (tblSet tbl (tval item) m)

/-- The finished `all_time_periods` table after all country buckets
(the per-country `normalized_data` lists, in country order) have been
accumulated. -/
def allTimePeriods (buckets : List (List Rec)) : Except String TimeTable :=
  buckets.foldlM (fun tbl items => items.foldlM accumItem tbl) []

/-- Deleting the `*_count` helper keys of an accumulated record. -/
def removeCountKeys (r : Rec) : Rec :=
  r.filter (fun kv => !(endsWithCount kv.1))

/-- The `data` list of the synthesized "All Countries" bucket: the
accumulated per-date records in insertion order with the helper keys
removed. -/
def allCountriesPeriods (buckets : List (List Rec)) : Except String (List Rec) :=
  (allTimePeriods buckets).map (fun tbl => (tbl.map (fun e => e.2)).map removeCountKeys)

/-! ### Association-list and table lemmas for the merge proof -/

theorem find?_set_self (r : Rec) (k : String) (v : Py) :
    Rec.find? (Rec.set r k v) k = some v := by
  induction r with
  | nil => simp [Rec.set, Rec.find?]
  | cons p rest ih =>
      rw [Rec.set]
      by_cases hk : p.1 = k
      · simp [Rec.find?, hk]
      · simp only [hk, if_false]
        rw [Rec.find?, if_neg hk]
        exact ih

theorem find?_set_other (r : Rec) (k k2 : String) (v : Py) (h : k ≠ k2) :
    Rec.find? (Rec.set r k v) k2 = Rec.find? r k2 := by
  induction r with
  | nil => simp [Rec.set, Rec.find?, h]
  | cons p rest ih =>
      rw [Rec.set]
      by_cases hk : p.1 = k
      · rw [if_pos hk, Rec.find?, Rec.find?, if_neg h, if_neg (hk ▸ h)]
      · rw [if_neg hk, Rec.find?, Rec.find?]
        by_cases hk2 : p.1 = k2
        · rw [if_pos hk2, if_pos hk2]
        · rw [if_neg hk2, if_neg hk2]
          exact ih

theorem mem_set_cases (r : Rec) (k : String) (v : Py) :
    ∀ kv ∈ Rec.set r k v, kv = (k, v) ∨ kv ∈ r := by
  induction r with
  | nil =>
      intro kv hkv
      rw [Rec.set] at hkv
      exact Or.inl (List.mem_singleton.mp hkv)
  | cons p rest ih =>
      intro kv hkv
      rw [Rec.set] at hkv
      by_cases hk : p.1 = k
      · rw [if_pos hk] at hkv
        rcases List.mem_cons.mp hkv with h1 | h1
        · exact Or.inl h1
        · exact Or.inr (List.mem_cons_of_mem p h1)
      · rw [if_neg hk] at hkv
        rcases List.mem_cons.mp hkv with h1 | h1
        · exact Or.inr (h1 ▸ List.mem_cons_self p rest)
        · rcases ih kv h1 with h2 | h2
          · exact Or.inl h2
          · exact Or.inr (List.mem_cons_of_mem p h2)

theorem beq_str_iff (v : Py) (t : String) : Py.beq v (.str t) = true ↔ v = .str t := by
  cases v <;> simp [Py.beq]

theorem beq_str_refl (t : String) : Py.beq (.str t) (.str t) = true := by
  simp [Py.beq]

theorem tblFind?_set_str (tbl : TimeTable) (t : String) (v : Rec) :
    tblFind? (tblSet tbl (.str t) v) (.str t) = some v := by
  induction tbl with
  | nil => simp [tblSet, tblFind?, beq_str_refl]
  | cons e rest ih =>
      rw [tblSet]
      by_cases hk : Py.beq e.1 (.str t) = true
      · rw [if_pos hk, tblFind?, if_pos hk]
      · rw [if_neg (by simpa using hk), tblFind?, if_neg (by simpa using hk)]
        exact ih

theorem beq_str_left_iff (s : String) (v : Py) :
    Py.beq (.str s) v = true ↔ v = .str s := by
  cases v <;> simp [Py.beq, eq_comm]

theorem tblFind?_set_other (tbl : TimeTable) (k : Py) (v : Rec) (t : String)
    (h : Py.beq k (.str t) = false) :
    tblFind? (tblSet tbl k v) (.str t) = tblFind? tbl (.str t) := by
  induction tbl with
  | nil => simp [tblSet, tblFind?, h]
  | cons e rest ih =>
      rw [tblSet]
      by_cases hk : Py.beq e.1 k = true
      · have hf : Py.beq e.1 (Py.str t) = false := by
          cases hb : Py.beq e.1 (Py.str t) with
          | false => rfl
          | true =>
              exfalso
              have he1 : e.1 = Py.str t := (beq_str_iff _ _).mp hb
              rw [he1] at hk
              have hk2 : k = Py.str t := (beq_str_left_iff _ _).mp hk
              rw [hk2, beq_str_refl] at h
              simp at h
        rw [if_pos hk, tblFind?, tblFind?, if_neg (by simp [hf]), if_neg (by simp [hf])]
      · rw [if_neg (by simpa using hk), tblFind?, tblFind?]
        by_cases ht : Py.beq e.1 (.str t) = true
        · rw [if_pos ht, if_pos ht]
        · rw [if_neg (by simpa using ht), if_neg (by simpa using ht)]
          exact ih

theorem tbl_mem_set_cases (tbl : TimeTable) (k : Py) (v : Rec) :
    ∀ e ∈ tblSet tbl k v, e.2 = v ∨ e ∈ tbl := by
  induction tbl with
  | nil =>
      intro e he
      rw [tblSet] at he
      rcases List.mem_singleton.mp he with h1
      exact Or.inl (by rw [h1])
  | cons p rest ih =>
      intro e he
      rw [tblSet] at he
      by_cases hk : Py.beq p.1 k = true
      · rw [if_pos hk] at he
        rcases List.mem_cons.mp he with h1 | h1
        · exact Or.inl (by rw [h1])
        · exact Or.inr (List.mem_cons_of_mem p h1)
      · rw [if_neg (by simpa using hk)] at he
        rcases List.mem_cons.mp he with h1 | h1
        · exact Or.inr (h1 ▸ List.mem_cons_self p rest)
        · rcases ih e h1 with h2 | h2
          · exact Or.inl h2
          · exact Or.inr (List.mem_cons_of_mem p h2)

/-- Invariant of an accumulated per-date record: every non-`time`
value is numeric and every `*_count` helper value is positive. -/
def accInv (acc : Rec) : Prop :=
  ∀ kv ∈ acc, kv.1 ≠ "time" →
    ∃ q : ℚ, kv.2 = Py.num q ∧ (endsWithCount kv.1 = true → 0 < q)

theorem find?_mem {r : Rec} {k : String} {v : Py}
    (h : Rec.find? r k = some v) : (k, v) ∈ r := by
  induction r with
  | nil => simp [Rec.find?] at h
  | cons p rest ih =>
      rw [Rec.find?] at h
      by_cases hk : p.1 = k
      · rw [if_pos hk] at h
        have hp : p = (k, v) := by
          cases p
          simp only [Option.some.injEq] at h
          simp_all
        exact List.mem_cons.mpr (Or.inl hp.symm)
      · rw [if_neg hk] at h
        exact List.mem_cons_of_mem p (ih h)

theorem accInv_getD {acc : Rec} (h : accInv acc) {k : String} (hk : k ≠ "time") :
    ∃ q : ℚ, Rec.getD acc k (.num 0) = .num q ∧
      (endsWithCount k = true → Rec.hasKey acc k = true → 0 < q) := by
  cases hfind : Rec.find? acc k with
  | none =>
      refine ⟨0, ?_, ?_⟩
      · simp [Rec.getD, hfind]
      · intro _ hkey
        rw [Rec.hasKey, hfind] at hkey
        simp at hkey
  | some v =>
      obtain ⟨q, hq, hpos⟩ := h (k, v) (find?_mem hfind) hk
      refine ⟨q, ?_, fun hc _ => hpos hc⟩
      rw [Rec.getD, hfind, Option.getD_some]
      exact hq

theorem accInv_set {acc : Rec} (h : accInv acc) {k : String} {q : ℚ}
    (hq : endsWithCount k = true → 0 < q) :
    accInv (Rec.set acc k (.num q)) := by
  intro kv hkv hkt
  rcases mem_set_cases acc k (.num q) kv hkv with h1 | h1
  · subst h1
    exact ⟨q, rfl, hq⟩
  · exact h kv h1 hkt

/-- Per-record value of field `f` as the merge loop accumulates it: the
sum of the values of all `f` bindings (equal to the dict value when
keys are unique). -/
def sumF (f : String) (r : Rec) : ℚ :=
  ((r.filter (fun kv => decide (kv.1 = f))).map (fun kv => pyQ kv.2)).sum

theorem sumF_nil (f : String) : sumF f [] = 0 := rfl

theorem sumF_cons (f : String) (kv : String × Py) (rest : List (String × Py)) :
    sumF f (kv :: rest) =
      (if kv.1 = f then pyQ kv.2 else 0) + sumF f rest := by
  rw [sumF, List.filter_cons]
  by_cases hk : kv.1 = f
  · simp [hk, sumF]
  · simp [hk, sumF]

theorem sumF_eq_zero_of_not_mem {f : String} {r : Rec}
    (h : f ∉ r.map Prod.fst) : sumF f r = 0 := by
  induction r with
  | nil => rfl
  | cons kv rest ih =>
      rw [sumF_cons]
      have h1 : kv.1 ≠ f := by
        intro he
        exact h (by simp [← he])
      rw [if_neg h1, ih (fun hm => h (by simp at hm ⊢; exact Or.inr hm))]
      ring

theorem find?_cons (p : String × Py) (rest : Rec) (k : String) :
    Rec.find? (p :: rest) k = if p.1 = k then some p.2 else Rec.find? rest k := by
  rw [Rec.find?]

theorem sumF_eq_recQ {f : String} {r : Rec} (hnd : (r.map Prod.fst).Nodup) :
    sumF f r = recQ r f := by
  induction r with
  | nil => simp [sumF, recQ, Rec.getD, Rec.find?, pyQ]
  | cons kv rest ih =>
      rw [List.map_cons, List.nodup_cons] at hnd
      rw [sumF_cons]
      by_cases hk : kv.1 = f
      · rw [if_pos hk, sumF_eq_zero_of_not_mem (hk ▸ hnd.1)]
        rw [recQ, Rec.getD, find?_cons, if_pos hk, Option.getD_some]
        ring
      · rw [if_neg hk, ih hnd.2]
        conv_rhs => rw [recQ, Rec.getD, find?_cons, if_neg hk]
        rw [← Rec.getD, ← recQ]
        ring

/-- The shape of a record entering the merge: `time` bindings are
strings, other bindings are numbers. -/
def fieldShape (kv : String × Py) : Prop :=
  (kv.1 = "time" → ∃ s, kv.2 = Py.str s) ∧ (kv.1 ≠ "time" → ∃ q : ℚ, kv.2 = Py.num q)

theorem mergeField_ok {f : String} (hf1 : f ≠ "time") (hf2 : f ≠ "avg_engage_time")
    (hf3 : endsWithCount f = false)
    {acc : Rec} (hinv : accInv acc) (kv : String × Py)
    (hkv : fieldShape kv) (hnc : endsWithCount kv.1 = false) :
    ∃ acc2, mergeField acc kv = .ok acc2 ∧ accInv acc2 ∧
      recQ acc2 f = recQ acc f + (if kv.1 = f then pyQ kv.2 else 0) := by
  by_cases ht : kv.1 = "time"
  · obtain ⟨s, hs⟩ := hkv.1 ht
    refine ⟨acc, ?_, hinv, ?_⟩
    · rw [mergeField, if_neg (by simp [ht])]
    · have hne : kv.1 ≠ f := by
        intro he
        rw [he] at ht
        exact hf1 ht
      rw [if_neg hne]
      ring
  · obtain ⟨q, hq⟩ := hkv.2 ht
    by_cases ha : kv.1 = "avg_engage_time"
    · -- running-average branch; the field written is not `f`
      have hkf : kv.1 ≠ f := by
        intro he
        rw [he] at ha
        exact hf2 ha
      have hck : kv.1 ++ "_count" = "avg_engage_time_count" := by
        rw [ha]
        decide
      have hckf : kv.1 ++ "_count" ≠ f := by
        rw [hck]
        intro he
        rw [← he] at hf3
        exact absurd hf3 (by decide)
      have hckt : kv.1 ++ "_count" ≠ "time" := by
        rw [hck]
        decide
      have hcknc : endsWithCount (kv.1 ++ "_count") = true := by
        rw [hck]
        decide
      simp only [mergeField]
      rw [if_pos (show kv.1 ≠ "time" ∧ isNumVal kv.2 = true from
          ⟨ht, by simp [hq, isNumVal]⟩)]
      rw [if_pos ha]
      set acc1 := if Rec.hasKey acc (kv.1 ++ "_count") then acc
          else Rec.set acc (kv.1 ++ "_count") (.num 1) with hacc1
      obtain ⟨c0, hc0, hc0pos⟩ :
          ∃ c0 : ℚ, Rec.getD acc1 (kv.1 ++ "_count") (.num 0) = .num c0 ∧ 0 < c0 := by
        rw [hacc1]
        by_cases hkey : Rec.hasKey acc (kv.1 ++ "_count")
        · obtain ⟨c0, hg, hpos⟩ := accInv_getD hinv hckt
          exact ⟨c0, by rw [if_pos hkey]; exact hg, hpos hcknc hkey⟩
        · refine ⟨1, ?_, by norm_num⟩
          rw [if_neg hkey, Rec.getD, find?_set_self, Option.getD_some]
      have hinv1 : accInv acc1 := by
        rw [hacc1]
        by_cases hkey : Rec.hasKey acc (kv.1 ++ "_count")
        · rw [if_pos hkey]
          exact hinv
        · rw [if_neg hkey]
          exact accInv_set hinv (fun _ => by norm_num)
      rw [hc0, pyAdd_num]
      simp only [exceptOkBind]
      set acc2 := Rec.set acc1 (kv.1 ++ "_count") (.num (c0 + 1)) with hacc2
      have hinv2 : accInv acc2 := accInv_set hinv1 (fun _ => by positivity)
      obtain ⟨a0, ha0, _⟩ := accInv_getD hinv2 ht
      rw [ha0]
      have hsub : pySub (Py.num (c0 + 1)) (Py.num 1) = .ok (.num c0) := by
        rw [pySub]
        norm_num
      rw [hsub]
      simp only [exceptOkBind, pyMul, hq, pyAdd_num]
      have hdiv : pyDiv (Py.num (a0 * c0 + q)) (Py.num (c0 + 1)) =
          .ok (.num ((a0 * c0 + q) / (c0 + 1))) := by
        rw [pyDiv, if_neg (by positivity)]
      rw [hdiv]
      simp only [exceptOkBind]
      refine ⟨_, rfl, ?_, ?_⟩
      · exact accInv_set hinv2 (fun hc => absurd hc (by rw [ha]; decide))
      · rw [if_neg hkf]
        rw [recQ, Rec.getD, find?_set_other _ _ _ _ hkf]
        rw [← Rec.getD, ← recQ]
        have h2 : recQ acc2 f = recQ acc1 f := by
          rw [hacc2, recQ, Rec.getD, find?_set_other _ _ _ _ hckf, ← Rec.getD, ← recQ]
        have h1 : recQ acc1 f = recQ acc f := by
          rw [hacc1]
          by_cases hkey : Rec.hasKey acc (kv.1 ++ "_count")
          · rw [if_pos hkey]
          · rw [if_neg hkey, recQ, Rec.getD, find?_set_other _ _ _ _ hckf,
              ← Rec.getD, ← recQ]
        rw [h2, h1]
        ring
    · -- plain summing branch
      obtain ⟨q0, hq0, _⟩ := accInv_getD hinv ht
      simp only [mergeField]
      rw [if_pos (show kv.1 ≠ "time" ∧ isNumVal kv.2 = true from
          ⟨ht, by simp [hq, isNumVal]⟩)]
      rw [if_neg ha, hq0, hq, pyAdd_num]
      simp only [exceptOkBind]
      refine ⟨_, rfl, accInv_set hinv (fun hc => absurd hc (by simp [hnc])), ?_⟩
      by_cases hkf : kv.1 = f
      · subst hkf
        rw [recQ, Rec.getD, find?_set_self, Option.getD_some]
        have hr : recQ acc kv.1 = q0 := by
          rw [recQ, hq0]
          rfl
        rw [hr, if_pos rfl]
        simp [pyQ]
      · rw [recQ, Rec.getD, find?_set_other _ _ _ _ hkf, ← Rec.getD, ← recQ,
          if_neg hkf]
        ring

theorem mergeInto_ok {f : String} (hf1 : f ≠ "time") (hf2 : f ≠ "avg_engage_time")
    (hf3 : endsWithCount f = false) :
    ∀ (item : List (String × Py)) (acc : Rec), accInv acc →
      (∀ kv ∈ item, fieldShape kv) → (∀ kv ∈ item, endsWithCount kv.1 = false) →
      ∃ acc2, mergeInto acc item = .ok acc2 ∧ accInv acc2 ∧
        recQ acc2 f = recQ acc f + sumF f item := by
  intro item
  induction item with
  | nil =>
      intro acc hinv _ _
      exact ⟨acc, rfl, hinv, by rw [sumF_nil]; ring⟩
  | cons kv rest ih =>
      intro acc hinv hshape hnc
      obtain ⟨acc1, hm, hinv1, hrec1⟩ := mergeField_ok hf1 hf2 hf3 hinv kv
        (hshape kv (List.mem_cons_self kv rest)) (hnc kv (List.mem_cons_self kv rest))
      obtain ⟨acc2, hm2, hinv2, hrec2⟩ := ih acc1 hinv1
        (fun x hx => hshape x (List.mem_cons_of_mem kv hx))
        (fun x hx => hnc x (List.mem_cons_of_mem kv hx))
      refine ⟨acc2, ?_, hinv2, ?_⟩
      · rw [mergeInto, List.foldlM_cons, hm, exceptOkBind]
        rw [mergeInto] at hm2
        exact hm2
      · rw [hrec2, hrec1, sumF_cons]
        ring

theorem tblFind?_mem {tbl : TimeTable} {key : Py} {v : Rec}
    (h : tblFind? tbl key = some v) : ∃ k, (k, v) ∈ tbl := by
  induction tbl with
  | nil => simp [tblFind?] at h
  | cons e rest ih =>
      rw [tblFind?] at h
      by_cases hk : Py.beq e.1 key = true
      · rw [if_pos hk] at h
        have he : e = (e.1, v) := by
          cases e
          simp_all
        exact ⟨e.1, List.mem_cons.mpr (Or.inl he.symm)⟩
      · rw [if_neg hk] at h
        obtain ⟨k, hm⟩ := ih h
        exact ⟨k, List.mem_cons_of_mem e hm⟩

/-- The accumulated value of field `f` under the date key `t`. -/
def tq (f t : String) (tbl : TimeTable) : ℚ :=
  ((tblFind? tbl (.str t)).map (fun acc => recQ acc f)).getD 0

theorem accumItem_ok {f t : String} (hf1 : f ≠ "time")
    (hf2 : f ≠ "avg_engage_time") (hf3 : endsWithCount f = false)
    {tbl : TimeTable} {item : Rec}
    (hinv : ∀ e ∈ tbl, accInv e.2)
    (hshape : ∀ kv ∈ item, fieldShape kv)
    (hnc : ∀ kv ∈ item, endsWithCount kv.1 = false)
    (hnd : (item.map Prod.fst).Nodup) :
    ∃ tbl2, accumItem tbl item = .ok tbl2 ∧ (∀ e ∈ tbl2, accInv e.2) ∧
      tq f t tbl2 = tq f t tbl +
        (if Py.beq (tval item) (.str t) = true then recQ item f else 0) ∧
      (tblFind? tbl2 (.str t)).isSome =
        ((tblFind? tbl (.str t)).isSome || Py.beq (tval item) (.str t)) := by
  have hitem_inv : accInv item := by
    intro kv hkv hkt
    obtain ⟨q, hq⟩ := (hshape kv hkv).2 hkt
    exact ⟨q, hq, fun hc => absurd hc (by simp [hnc kv hkv])⟩
  rw [accumItem]
  cases hfind : tblFind? tbl (tval item) with
  | none =>
      refine ⟨_, rfl, ?_, ?_, ?_⟩
      · intro e he
        rcases tbl_mem_set_cases tbl (tval item) item e he with h1 | h1
        · rw [h1]
          exact hitem_inv
        · exact hinv e h1
      · cases hbq : Py.beq (tval item) (.str t) with
        | true =>
            have htk : tval item = .str t := (beq_str_iff _ _).mp hbq
            rw [htk] at hfind ⊢
            rw [tq, tq, tblFind?_set_str, hfind]
            simp
        | false =>
            rw [tq, tq, tblFind?_set_other tbl (tval item) item t hbq]
            simp
      · cases hbq : Py.beq (tval item) (.str t) with
        | true =>
            have htk : tval item = .str t := (beq_str_iff _ _).mp hbq
            rw [htk] at hfind ⊢
            rw [tblFind?_set_str, hfind]
            simp
        | false =>
            rw [tblFind?_set_other tbl (tval item) item t hbq]
            simp
  | some acc =>
      have haccinv : accInv acc := by
        obtain ⟨k, hm⟩ := tblFind?_mem hfind
        exact hinv (k, acc) hm
      obtain ⟨acc2, hm, hinv2, hrec⟩ :=
        mergeInto_ok hf1 hf2 hf3 item acc haccinv hshape hnc
      simp only [hm, exceptOkBind]
      refine ⟨_, rfl, ?_, ?_, ?_⟩
      · intro e he
        rcases tbl_mem_set_cases tbl (tval item) acc2 e he with h1 | h1
        · rw [h1]
          exact hinv2
        · exact hinv e h1
      · cases hbq : Py.beq (tval item) (.str t) with
        | true =>
            have htk : tval item = .str t := (beq_str_iff _ _).mp hbq
            rw [htk] at hfind ⊢
            rw [tq, tq, tblFind?_set_str, hfind]
            have hs := sumF_eq_recQ (f := f) hnd
            simp [hrec, hs]
        | false =>
            rw [tq, tq, tblFind?_set_other tbl (tval item) acc2 t hbq]
            simp
      · cases hbq : Py.beq (tval item) (.str t) with
        | true =>
            have htk : tval item = .str t := (beq_str_iff _ _).mp hbq
            rw [htk] at hfind ⊢
            rw [tblFind?_set_str, hfind]
            simp
        | false =>
            rw [tblFind?_set_other tbl (tval item) acc2 t hbq]
            simp

/-- A bucket record ready for accumulation: well-formed values, no
`*_count` keys, unique keys. -/
def goodRec (r : Rec) : Prop :=
  cleanRec r ∧ (∀ kv ∈ r, endsWithCount kv.1 = false) ∧ (r.map Prod.fst).Nodup

theorem accumList_ok {f t : String} (hf1 : f ≠ "time")
    (hf2 : f ≠ "avg_engage_time") (hf3 : endsWithCount f = false) :
    ∀ (items : List Rec) (tbl : TimeTable), (∀ e ∈ tbl, accInv e.2) →
      (∀ r ∈ items, goodRec r) →
      ∃ tbl2, items.foldlM accumItem tbl = .ok tbl2 ∧ (∀ e ∈ tbl2, accInv e.2) ∧
        tq f t tbl2 = tq f t tbl +
          ((items.filter (fun r => Py.beq (tval r) (.str t))).map
            (fun r => recQ r f)).sum ∧
        (tblFind? tbl2 (.str t)).isSome =
          ((tblFind? tbl (.str t)).isSome ||
            items.any (fun r => Py.beq (tval r) (.str t))) := by
  intro items
  induction items with
  | nil =>
      intro tbl hinv _
      refine ⟨tbl, rfl, hinv, by simp, by simp⟩
  | cons r rest ih =>
      intro tbl hinv hgood
      have hr := hgood r (List.mem_cons_self r rest)
      obtain ⟨tbl1, h1, hinv1, htq1, hsome1⟩ :=
        accumItem_ok hf1 hf2 hf3 hinv (fun kv hkv => hr.1 kv hkv) hr.2.1 hr.2.2
      obtain ⟨tbl2, h2, hinv2, htq2, hsome2⟩ := ih tbl1 hinv1
        (fun x hx => hgood x (List.mem_cons_of_mem r hx))
      refine ⟨tbl2, ?_, hinv2, ?_, ?_⟩
      · rw [List.foldlM_cons, h1, exceptOkBind]
        exact h2
      · rw [htq2, htq1, List.filter_cons]
        cases hbq : Py.beq (tval r) (.str t) with
        | true => simp [hbq]; ring
        | false => simp [hbq]
      · rw [hsome2, hsome1, List.any_cons]
        cases hbq : Py.beq (tval r) (.str t) <;> simp [hbq]

theorem accumBuckets_ok {f t : String} (hf1 : f ≠ "time")
    (hf2 : f ≠ "avg_engage_time") (hf3 : endsWithCount f = false) :
    ∀ (buckets : List (List Rec)) (tbl : TimeTable), (∀ e ∈ tbl, accInv e.2) →
      (∀ b ∈ buckets, ∀ r ∈ b, goodRec r) →
      ∃ tbl2, buckets.foldlM (fun tb items => items.foldlM accumItem tb) tbl =
          .ok tbl2 ∧
        (∀ e ∈ tbl2, accInv e.2) ∧
        tq f t tbl2 = tq f t tbl +
          (buckets.map (fun b =>
            ((b.filter (fun r => Py.beq (tval r) (.str t))).map
              (fun r => recQ r f)).sum)).sum ∧
        (tblFind? tbl2 (.str t)).isSome =
          ((tblFind? tbl (.str t)).isSome ||
            buckets.any (fun b => b.any (fun r => Py.beq (tval r) (.str t)))) := by
  intro buckets
  induction buckets with
  | nil =>
      intro tbl hinv _
      refine ⟨tbl, rfl, hinv, by simp, by simp⟩
  | cons b rest ih =>
      intro tbl hinv hgood
      obtain ⟨tbl1, h1, hinv1, htq1, hsome1⟩ := accumList_ok hf1 hf2 hf3 b tbl hinv
        (hgood b (List.mem_cons_self b rest))
      obtain ⟨tbl2, h2, hinv2, htq2, hsome2⟩ := ih tbl1 hinv1
        (fun x hx => hgood x (List.mem_cons_of_mem b hx))
      refine ⟨tbl2, ?_, hinv2, ?_, ?_⟩
      · rw [List.foldlM_cons, h1, exceptOkBind]
        exact h2
      · rw [htq2, htq1, List.map_cons, List.sum_cons]
        ring
      · rw [hsome2, hsome1, List.any_cons]
        simp [Bool.or_assoc]

theorem find?_removeCountKeys (r : Rec) {f : String}
    (hf : endsWithCount f = false) :
    Rec.find? (removeCountKeys r) f = Rec.find? r f := by
  induction r with
  | nil => rfl
  | cons p rest ih =>
      rw [removeCountKeys, List.filter_cons]
      by_cases hp : endsWithCount p.1 = true
      · have hpf : p.1 ≠ f := by
          intro he
          rw [he, hf] at hp
          exact Bool.false_ne_true hp
        rw [if_neg (by simp [hp])]
        rw [find?_cons, if_neg hpf]
        rw [removeCountKeys] at ih
        exact ih
      · rw [if_pos (by simp [hp])]
        rw [find?_cons, find?_cons]
        by_cases hpf : p.1 = f
        · rw [if_pos hpf, if_pos hpf]
        · rw [if_neg hpf, if_neg hpf]
          rw [removeCountKeys] at ih
          exact ih

/-! ### Claim C4: cross-country per-date sums -/

/-- C4: for a date `t` present (exactly once) in each of the K country
buckets, the "All Countries" record accumulated for `t` by
`_process_country_data` carries, for every non-averaged numeric field
`f` (not `time`, not `avg_engage_time`, not an internal `*_count`
key), exactly the sum of the K per-country values of `f`, and that
record (with the `*_count` helper keys removed) is one of the
"All Countries" period records. -/
theorem C4_all_countries_sum (buckets : List (List Rec)) (t f : String)
    (hf1 : f ≠ "time") (hf2 : f ≠ "avg_engage_time")
    (hf3 : endsWithCount f = false)
    (hgood : ∀ b ∈ buckets, ∀ r ∈ b, goodRec r)
    (hone : ∀ b ∈ buckets, ∃ r, b.filter (fun x => Py.beq (tval x) (.str t)) = [r])
    (hne : buckets ≠ []) :
    ∃ tbl acc, allTimePeriods buckets = .ok tbl ∧
      tblFind? tbl (.str t) = some acc ∧
      allCountriesPeriods buckets = .ok ((tbl.map (fun e => e.2)).map removeCountKeys) ∧
      removeCountKeys acc ∈ (tbl.map (fun e => e.2)).map removeCountKeys ∧
      recQ (removeCountKeys acc) f =
        (buckets.map (fun b =>
          ((b.filter (fun r => Py.beq (tval r) (.str t))).map
            (fun r => recQ r f)).sum)).sum := by
  obtain ⟨tbl, hok, hinv, htq, hsome⟩ :=
    accumBuckets_ok hf1 hf2 hf3 buckets [] (by simp) hgood
  have hsome2 : (tblFind? tbl (.str t)).isSome = true := by
    rw [hsome]
    cases buckets with
    | nil => exact absurd rfl hne
    | cons b rest =>
        obtain ⟨r, hr⟩ := hone b (List.mem_cons_self b rest)
        have hrmem : r ∈ b.filter (fun x => Py.beq (tval x) (.str t)) := by
          rw [hr]
          exact List.mem_singleton.mpr rfl
        have := List.mem_filter.mp hrmem
        rw [List.any_cons]
        have hb : b.any (fun x => Py.beq (tval x) (.str t)) = true :=
          List.any_eq_true.mpr ⟨r, this.1, this.2⟩
        simp [hb]
  obtain ⟨acc, hacc⟩ := Option.isSome_iff_exists.mp hsome2
  refine ⟨tbl, acc, by rw [allTimePeriods]; exact hok, hacc, ?_, ?_, ?_⟩
  · rw [allCountriesPeriods, allTimePeriods, hok, exceptMapOk]
  · obtain ⟨k, hm⟩ := tblFind?_mem hacc
    exact List.mem_map_of_mem removeCountKeys
      (List.mem_map_of_mem (fun e => e.2) hm)
  · have hclean : recQ (removeCountKeys acc) f = recQ acc f := by
      rw [recQ, recQ, Rec.getD, Rec.getD, find?_removeCountKeys acc hf3]
    rw [hclean]
    have : tq f t tbl = recQ acc f := by
      rw [tq, hacc]
      simp
    rw [← this, htq]
    rw [tq]
    simp [tblFind?]

/-- C4 (witness): three country buckets with `first_open` 10, 20 and 5
on the same date merge to an "All Countries" record with
`first_open = 35`. -/
theorem C4_witness :
    ∃ tbl acc, allTimePeriods
        [[[("time", Py.str "01/01/2025"), ("first_open", Py.num 10)]],
         [[("time", Py.str "01/01/2025"), ("first_open", Py.num 20)]],
         [[("time", Py.str "01/01/2025"), ("first_open", Py.num 5)]]] = .ok tbl ∧
      tblFind? tbl (.str "01/01/2025") = some acc ∧
      allCountriesPeriods
        [[[("time", Py.str "01/01/2025"), ("first_open", Py.num 10)]],
         [[("time", Py.str "01/01/2025"), ("first_open", Py.num 20)]],
         [[("time", Py.str "01/01/2025"), ("first_open", Py.num 5)]]] =
        .ok ((tbl.map (fun e => e.2)).map removeCountKeys) ∧
      removeCountKeys acc ∈ (tbl.map (fun e => e.2)).map removeCountKeys ∧
      recQ (removeCountKeys acc) "first_open" = 35 := by
  obtain ⟨tbl, acc, h1, h2, h3, h4, h5⟩ := C4_all_countries_sum
    [[[("time", Py.str "01/01/2025"), ("first_open", Py.num 10)]],
     [[("time", Py.str "01/01/2025"), ("first_open", Py.num 20)]],
     [[("time", Py.str "01/01/2025"), ("first_open", Py.num 5)]]]
    "01/01/2025" "first_open" (by decide) (by decide) (by decide)
    (by
      intro b hb r hr
      have hgr : ∀ q : ℚ, goodRec [("time", Py.str "01/01/2025"), ("first_open", Py.num q)] := by
        intro q
        refine ⟨?_, ?_, ?_⟩
        · intro p hp
          rcases List.mem_cons.mp hp with h2 | h2
          · subst h2
            exact ⟨fun _ => ⟨_, rfl⟩, fun hc => absurd rfl hc⟩
          · rcases List.mem_singleton.mp h2 with h3
            subst h3
            exact ⟨fun hc => absurd hc (show ¬ "first_open" = "time" by decide),
              fun _ => ⟨q, rfl⟩⟩
        · intro kv hkv
          rcases List.mem_cons.mp hkv with h2 | h2
          · subst h2
            exact (show endsWithCount "time" = false by decide)
          · rcases List.mem_singleton.mp h2 with h3
            subst h3
            exact (show endsWithCount "first_open" = false by decide)
        · exact (show (["time", "first_open"] : List String).Nodup by decide)
      rcases List.mem_cons.mp hb with h1 | h1
      · subst h1
        rcases List.mem_singleton.mp hr with h
        subst h
        exact hgr 10
      rcases List.mem_cons.mp h1 with h2 | h2
      · subst h2
        rcases List.mem_singleton.mp hr with h
        subst h
        exact hgr 20
      · rcases List.mem_singleton.mp h2 with h3
        subst h3
        rcases List.mem_singleton.mp hr with h
        subst h
        exact hgr 5)
    (by
      intro b hb
      rcases List.mem_cons.mp hb with h1 | h1
      · refine ⟨[("time", Py.str "01/01/2025"), ("first_open", Py.num 10)], ?_⟩
        rw [h1]
        rfl
      rcases List.mem_cons.mp h1 with h2 | h2
      · refine ⟨[("time", Py.str "01/01/2025"), ("first_open", Py.num 20)], ?_⟩
        rw [h2]
        rfl
      · rcases List.mem_singleton.mp h2 with h3
        refine ⟨[("time", Py.str "01/01/2025"), ("first_open", Py.num 5)], ?_⟩
        rw [h3]
        rfl)
    (by simp)
  refine ⟨tbl, acc, h1, h2, h3, h4, ?_⟩
  rw [h5]
  show ((10 : ℚ) + 0) + (((20 : ℚ) + 0) + (((5 : ℚ) + 0) + 0)) = 35
  norm_num

/-! ### `DataProcessor.process_webhook_data` (claim C7) -/

/-- The processed structure built for one country or one legacy
payload. -/
structure SeriesData where
  is_time_series : Bool
  time_periods : ℕ
  data : List Rec
  latest_period : Rec
  aggregated : Rec

/-- `re.match` of `\d{2}/\d{2}/\d{4}` (a prefix match) in
`convert_date_format`. -/
def startsWithDMY (cs : List Char) : Bool :=
  match cs with
  | d1 :: d2 :: c1 :: m1 :: m2 :: c2 :: y1 :: y2 :: y3 :: y4 :: _ =>
      d1.isDigit && d2.isDigit && (c1 = '/') && m1.isDigit && m2.isDigit &&
        (c2 = '/') && y1.isDigit && y2.isDigit && y3.isDigit && y4.isDigit
  | _ => false

def isEightDigits (cs : List Char) : Bool :=
  cs.length = 8 && cs.all Char.isDigit

/-- Embedding of `DataProcessor.convert_date_format` on strings (the
non-string early return is handled at the call site, which only calls
this on strings). -/
def convertDateFormat (s : String) : String :=
  if s = "" then s
  else if startsWithDMY s.toList then s
  else if isEightDigits s.toList then
    String.mk (s.toList.drop 6 ++ '/' :: (s.toList.drop 4).take 2 ++ '/' :: s.toList.take 4)
  else s

/-- Python `self.field_mapping.get(key, key)`. -/
def strMapGetD (m : List (String × String)) (k : String) : String :=
  match m with
  | [] => k
  | p :: rest => if p.1 = k then p.2 else strMapGetD rest k

/-- Embedding of `DataProcessor._normalize_fields`. -/
def normalizeFields (r : Rec) : Rec :=
  r.foldl (fun acc kv =>
    let nk := strMapGetD fieldMapping kv.1
    if nk = "time" then
      match kv.2 with
      | .str s => Rec.set acc nk (.str (convertDateFormat s))
      | v => Rec.set acc nk v
    else Rec.set acc nk kv.2) []

/-- Python `for ... in value`: lists iterate their items; empty dicts
and empty strings iterate nothing; iterating a non-empty dict or string
yields values whose `.items()` access in `_normalize_fields` raises
`AttributeError` at once, collapsed into the error here; other values
raise `TypeError`. -/
def pyIterE : Py → Except String (List Py)
  | .list l => .ok l
  | .dict [] => .ok []
  | .dict (_ :: _) => .error "AttributeError"
  | .str s => if s = "" then .ok [] else .error "AttributeError"
  | _ => .error "TypeError"

def pySetSeries : List (Py × SeriesData) → Py → SeriesData → List (Py × SeriesData)
  | [], key, v => [(key, v)]
  | e :: rest, key, v =>
      if Py.beq e.1 key then (e.1, v) :: rest else e :: pySetSeries rest key v

/-- Embedding of `DataProcessor._process_country_data`: normalize and
validate each country record, build each country entry, accumulate the
cross-country table, and append the synthesized "All Countries" bucket
when the table is non-empty. -/
def processCountryData (arr : List Py) : Except String (List (Py × SeriesData)) := do
  let st ← arr.foldlM (fun (st : List (Py × SeriesData) × TimeTable) cobj => do
      let cdict ← (match cobj with
        | .dict d => Except.ok d
        | _ => Except.error "AttributeError")
      let country := Rec.getD cdict "country" (.str "Unknown")
      let cdataList ← pyIterE (Rec.getD cdict "data" (.list []))
      let normalized ← cdataList.foldlM (fun acc it =>
          match it with
          | .dict d =>
              let n := normalizeFields d
              Except.ok (if validateDataRelaxed (.dict n) then acc ++ [n] else acc)
          | _ => Except.error "AttributeError") []
      if normalized.isEmpty then pure st
      else do
        let agg ← aggregateTimeSeries normalized
        let entry : SeriesData :=
          ⟨true, normalized.length, normalized, normalized.getLastD [], agg⟩
        let tbl2 ← normalized.foldlM accumItem st.2
        pure (pySetSeries st.1 country entry, tbl2)) ([], [])
  if st.2.isEmpty then pure st.1
  else do
    let periods := (st.2.map (fun e => e.2)).map removeCountKeys
    let agg ← aggregateTimeSeries periods
    pure (pySetSeries st.1 (.str "All Countries")
      ⟨true, periods.length, periods, periods.getLastD [], agg⟩)

/-- Embedding of `DataProcessor._process_legacy_array`. -/
def processLegacyArray (arr : List Py) : Except String (Option SeriesData) :=
  let valid := arr.filterMap (fun p =>
    match p with
    | .dict d => if validateData (.dict d) then some d else none
    | _ => none)
  if valid.isEmpty then .ok none
  else do
    let agg ← aggregateTimeSeries valid
    pure (some ⟨true, valid.length, valid, valid.getLastD [], agg⟩)

/-- Embedding of `DataProcessor._process_single_object`. -/
def processSingleObject (d : Rec) : Option SeriesData :=
  if validateData (.dict d) then some ⟨false, 1, [d], d, d⟩ else none

/-- The two result shapes `process_webhook_data` can produce. -/
inductive ProcessedData where
  | countries (m : List (Py × SeriesData))
  | single (s : SeriesData)

/-- The first-element check selecting the country-based format. -/
def isCountryShaped : Py → Bool
  | .dict d => Rec.hasKey d "country" && Rec.hasKey d "data"
  | _ => false

/-- The body of `process_webhook_data` inside its `try`. -/
def processWebhookDataE (raw : Py) : Except String (Option ProcessedData) :=
  match raw with
  | .list (first :: rest) =>
      if isCountryShaped first then
        (processCountryData (first :: rest)).map (fun cd => some (.countries cd))
      else
        (processLegacyArray (first :: rest)).map (fun o => o.map .single)
  | .list [] => .ok none
  | .dict d => .ok ((processSingleObject d).map .single)
  | _ => .ok none

/-- Embedding of `DataProcessor.process_webhook_data`: the catch-all
`except` turns every raised exception into `None`, so the function is
total. -/
def processWebhookData (raw : Py) : Option ProcessedData :=
  match processWebhookDataE raw with
  | .ok v => v
  | .error _ => none

/-- Python truthiness of the processed result (`if processed_data:` in
`app.py`): an empty country mapping is falsy. -/
def ProcessedData.truthy : ProcessedData → Bool
  | .countries m => !m.isEmpty
  | .single _ => true

/-- The state update `app.py` performs after a fetch:
`processed_data = processor.process_webhook_data(data)` followed by
`if processed_data: st.session_state.data = processed_data` (else the
held state is kept and an error message is shown). -/
def updateState (st : Option ProcessedData) (raw : Py) : Option ProcessedData :=
  match processWebhookData raw with
  | some d => if d.truthy then some d else st
  | none => st

/-! ### Claim C7: no-raise processing and unchanged state -/

/-- C7 (counterexample): the claim says a validation failure makes the
processor return `None`.  For the country-based shape whose records all
fail validation the processor instead returns an empty country mapping
(`{}` in Python), which is "no data" but not `None`. -/
theorem C7_counterexample :
    processWebhookData
        (.list [.dict [("country", Py.str "US"), ("data", .list [.dict []])]]) =
      some (.countries []) ∧
    some (ProcessedData.countries []) ≠ (none : Option ProcessedData) := by
  constructor
  · rfl
  · simp

/-- C7 (amended): processing never raises (the embedding is total and
collapses every internal exception to `None`); a failed single-object
validation, a legacy array with no valid record, and an unrecognized
shape all yield `None`; a country-based payload with no valid data
yields the falsy empty mapping; and in every `None` or falsy case the
previously held state is left unchanged. -/
theorem C7_amended_no_data :
    (∀ d : Rec, validateData (.dict d) = false → processWebhookData (.dict d) = none) ∧
    (∀ (first : Py) (rest : List Py), isCountryShaped first = false →
      (∀ p ∈ first :: rest, validateData p = false) →
      processWebhookData (.list (first :: rest)) = none) ∧
    (processWebhookData (.list []) = none ∧ processWebhookData .null = none ∧
      (∀ q : ℚ, processWebhookData (.num q) = none) ∧
      (∀ s : String, processWebhookData (.str s) = none)) ∧
    (∀ (raw : Py) (st : Option ProcessedData),
      processWebhookData raw = none → updateState st raw = st) ∧
    (∀ (raw : Py) (st : Option ProcessedData) (d : ProcessedData),
      processWebhookData raw = some d → d.truthy = false →
      updateState st raw = st) := by
  refine ⟨?_, ?_, ⟨rfl, rfl, fun _ => rfl, fun _ => rfl⟩, ?_, ?_⟩
  · intro d h
    rw [processWebhookData, processWebhookDataE, processSingleObject, h]
    rfl
  · intro first rest hshape hval
    rw [processWebhookData, processWebhookDataE, if_neg (by simp [hshape])]
    have hnil : (first :: rest).filterMap (fun p =>
        match p with
        | .dict d => if validateData (.dict d) then some d else none
        | _ => none) = [] := by
      rw [List.filterMap_eq_nil_iff]
      intro p hp
      cases p with
      | dict d =>
          have hv := hval (Py.dict d) hp
          simp [hv]
      | num q => rfl
      | str s => rfl
      | list l => rfl
      | null => rfl
    rw [processLegacyArray, hnil]
    rfl
  · intro raw st h
    rw [updateState, h]
  · intro raw st d h htr
    rw [updateState, h]
    simp [htr]

/-- C7 (witness): the no-data behaviour evaluated on concrete inputs:
an invalid single object, an all-invalid legacy array, a scalar, and
the unchanged state after a failed fetch and after an empty country
payload. -/
theorem C7_witness :
    processWebhookData (.dict []) = none ∧
    processWebhookData (.list [.num 1]) = none ∧
    updateState (some (.single ⟨false, 1, [[]], [], []⟩)) (.num 3) =
      some (.single ⟨false, 1, [[]], [], []⟩) ∧
    updateState (some (.single ⟨false, 1, [[]], [], []⟩))
        (.list [.dict [("country", Py.str "US"), ("data", .list [.dict []])]]) =
      some (.single ⟨false, 1, [[]], [], []⟩) := by
  refine ⟨?_, ?_, ?_, ?_⟩
  · exact C7_amended_no_data.1 [] rfl
  · exact C7_amended_no_data.2.1 (.num 1) [] rfl
      (by
        intro p hp
        rcases List.mem_singleton.mp hp with h
        subst h
        rfl)
  · exact C7_amended_no_data.2.2.2.1 (.num 3) _ rfl
  · exact C7_amended_no_data.2.2.2.2
      (.list [.dict [("country", Py.str "US"), ("data", .list [.dict []])]]) _
      (.countries []) rfl rfl

end YogaStat
